import Mathlib

/-!
Verification of the startup schema-migration / auto-repair mechanism of the
IT-asset management backend (`server.js`): the `ensureCriticalSchema` repair
pass with its `checkAndAddColumn` helper, and the `runMigrations` runner with
its fixed list of 15 numbered migrations over a MySQL database.

The database is modelled shallowly: a schema (association list of tables,
each a list of named columns with a textual definition fragment) together
with row stores for the three tables whose rows the migrations touch
(`users`, `app_config`, and the `migrations` bookkeeping table).  Each SQL
statement the code issues is a constructor of `Stmt`, executed by `execStmt`
with MySQL's semantics for those statement forms (CREATE TABLE IF NOT EXISTS
is a no-op on an existing table, ALTER TABLE ADD COLUMN errors on a
duplicate column or missing table, INSERT IGNORE skips on a unique-key
conflict, ...).  Environmental failures (permission errors, lock conflicts)
are modelled by a fault oracle `f : Stmt → Bool` injected in front of the
intrinsic semantics.  The runner additionally emits a trace of `Event`s, one
per `connection.query` call, tagged by the program point that issued it.
-/

set_option autoImplicit false
set_option maxRecDepth 100000

namespace Srv

/-- A schema column: its name and the textual type/constraint fragment that
follows it in the DDL (e.g. `"VARCHAR(255) NULL"`). -/
structure Column where
  name : String
  defn : String
deriving DecidableEq, Repr

/-- A table schema: its ordered list of columns. -/
structure Table where
  cols : List Column
deriving DecidableEq, Repr

/-- A row of the `users` table as inserted by the admin-seed migration
(`INSERT IGNORE INTO users (username, realName, email, password, role)`).
`username` and `email` carry UNIQUE constraints (migration 1). -/
structure UserRow where
  username : String
  realName : String
  email : String
  password : String
  role : String
deriving DecidableEq, Repr

/-- A row of `app_config` (`config_key` is UNIQUE; `config_value` is a
nullable TEXT column, hence `Option String`). -/
structure ConfigRow where
  config_key : String
  config_value : Option String
deriving DecidableEq, Repr

/-- The database state: the schema as an association list from table name to
table (first entry wins, as MySQL table names are unique), plus the row
stores of the tables whose rows this mechanism reads or writes.
`appliedIds` is the row set of the `migrations` bookkeeping table. -/
structure DB where
  tables : List (String × Table)
  userRows : List UserRow
  configRows : List ConfigRow
  appliedIds : List Nat
deriving DecidableEq, Repr

/-- The empty database: no tables, no rows. -/
def emptyDB : DB := ⟨[], [], [], []⟩

/-- First table entry with the given name, if any. -/
def getTable (db : DB) (t : String) : Option Table :=
  (db.tables.find? (fun p => p.1 = t)).map (fun p => p.2)

/-- Whether a table with the given name exists (`SHOW TABLES LIKE t`). -/
def tableExists (db : DB) (t : String) : Bool :=
  (getTable db t).isSome

/-- The column names of a table (`SHOW COLUMNS FROM t`, field `Field`). -/
def columnNames (tbl : Table) : List String :=
  tbl.cols.map (fun c => c.name)

/-- Replace the first entry with the given name by the given table. -/
def setTable : List (String × Table) → String → Table → List (String × Table)
  | [], _, _ => []
  | (n, tb) :: rest, t, tbl =>
      if n = t then (n, tbl) :: rest else (n, tb) :: setTable rest t tbl

/-- `ALTER TABLE t ADD COLUMN c d` on the state: appends the column at the
end of the table's column list (MySQL appends by default). -/
def addColumnToDB (db : DB) (t c d : String) : DB :=
  match getTable db t with
  | none => db
  | some tbl => { db with tables := setTable db.tables t (Table.mk (tbl.cols ++ [Column.mk c d])) }

/-- `ALTER TABLE t MODIFY COLUMN c d` on the state: every column named `c`
in the table gets definition `d`. -/
def modifyColumnDB (db : DB) (t c d : String) : DB :=
  match getTable db t with
  | none => db
  | some tbl =>
      let tbl2 := Table.mk (tbl.cols.map (fun col => if col.name = c then Column.mk c d else col))
      { db with tables := setTable db.tables t tbl2 }

/-- The SQL statements issued by the repair pass and the migration list, one
constructor per statement form appearing in the source.  `createTable` is
`CREATE TABLE IF NOT EXISTS` with the optional list of tables referenced by
FOREIGN KEY clauses. -/
inductive Stmt where
  | createTable (t : String) (cols : List Column) (fkRefs : List String)
  | addColumn (t c d : String)
  | modifyColumn (t c d : String)
  | insertIgnoreUser (u : UserRow)
  | insertIgnoreConfig (k : String) (v : Option String)
  | insertMigrationId (i : Nat)
  | showTablesLike (t : String)
  | showColumnsFrom (t : String)
  | showColumnsLike (t c : String)
deriving DecidableEq, Repr

/-- Intrinsic MySQL semantics of the statement forms used by the code.
`Except Unit DB` : `.error ()` is a raised SQL error (caught by the caller's
`try`/`catch`), `.ok` the updated state.  Uniqueness on `users.username`,
`users.email`, `app_config.config_key` and `migrations.id` reflects the
UNIQUE / PRIMARY KEY constraints created by migrations 1, 6 and the
bookkeeping DDL; `INSERT IGNORE` turns a unique-key conflict into a no-op. -/
def execStmt (db : DB) : Stmt → Except Unit DB
  | .createTable t cols fkRefs =>
      if tableExists db t then .ok db
      else if fkRefs.all (fun r => tableExists db r) then
        .ok { db with tables := db.tables ++ [(t, ⟨cols⟩)] }
      else .error ()
  | .addColumn t c d =>
      match getTable db t with
      | none => .error ()
      | some tbl =>
          if c ∈ columnNames tbl then .error ()
          else .ok (addColumnToDB db t c d)
  | .modifyColumn t c d =>
      match getTable db t with
      | none => .error ()
      | some tbl =>
          if c ∈ columnNames tbl then .ok (modifyColumnDB db t c d)
          else .error ()
  | .insertIgnoreUser u =>
      if tableExists db "users" then
        if db.userRows.any (fun v => v.username = u.username || v.email = u.email) then
          .ok db
        else .ok { db with userRows := db.userRows ++ [u] }
      else .error ()
  | .insertIgnoreConfig k v =>
      if tableExists db "app_config" then
        if db.configRows.any (fun r => r.config_key = k) then .ok db
        else .ok { db with configRows := db.configRows ++ [⟨k, v⟩] }
      else .error ()
  | .insertMigrationId i =>
      if tableExists db "migrations" then
        if i ∈ db.appliedIds then .error ()
        else .ok { db with appliedIds := db.appliedIds ++ [i] }
      else .error ()
  | .showTablesLike _ => .ok db
  | .showColumnsFrom t => if tableExists db t then .ok db else .error ()
  | .showColumnsLike t _ => if tableExists db t then .ok db else .error ()

/-- Events of the startup trace, one per `connection.query` call (plus
acquisition/release of the pooled connection), tagged by the program point
that issued it: `repairQuery` from inside `ensureCriticalSchema`,
`migQuery mid` from the migration loop while processing migration `mid`,
`recordApplied`/`migFailed` for the bookkeeping insert and the logged
failure of a migration. -/
inductive Event where
  | connect
  | createBookkeeping
  | readApplied (ids : List Nat)
  | repairQuery (s : Stmt)
  | migQuery (mid : Nat) (s : Stmt)
  | recordApplied (mid : Nat)
  | migFailed (mid : Nat)
  | release
deriving DecidableEq, Repr

/-- The fault oracle that injects no environmental failures. -/
def noFaults : Stmt → Bool := fun _ => false

/-- `checkAndAddColumn(tableName, columnName, columnDef)` from
`ensureCriticalSchema`: probe `SHOW TABLES LIKE`, return silently if the
table is missing; probe `SHOW COLUMNS FROM`, return silently if the column
is present; otherwise issue the `ALTER TABLE ... ADD COLUMN`.  The whole
body sits in a `try`/`catch` that logs and swallows any error, so a fault
at any of the three statements leaves the state unchanged.  Returns the
updated state together with the events this call emitted. -/
def checkAndAddColumn (f : Stmt → Bool) (db : DB) (t c d : String) : DB × List Event :=
  let e1 : List Event := [.repairQuery (.showTablesLike t)]
  if f (.showTablesLike t) then (db, e1)
  else
    match getTable db t with
    | none => (db, e1)
    | some tbl =>
        let e2 := e1 ++ [.repairQuery (.showColumnsFrom t)]
        if f (.showColumnsFrom t) then (db, e2)
        else if c ∈ columnNames tbl then (db, e2)
        else
          let e3 := e2 ++ [.repairQuery (.addColumn t c d)]
          if f (.addColumn t c d) then (db, e3)
          else (addColumnToDB db t c d, e3)

/-- The fixed `(tableName, columnName, columnDef)` arguments of the
`checkAndAddColumn` calls in `ensureCriticalSchema`, in source order. -/
def repairRules : List (String × String × String) :=
  [ ("licenses", "empresa", "VARCHAR(255) NULL"),
    ("licenses", "observacoes", "TEXT"),
    ("licenses", "approval_status", "VARCHAR(50) DEFAULT 'approved'"),
    ("licenses", "rejection_reason", "TEXT"),
    ("licenses", "created_by_id", "INT NULL"),
    ("equipment", "observacoes", "TEXT"),
    ("equipment", "approval_status", "VARCHAR(50) DEFAULT 'approved'"),
    ("equipment", "rejection_reason", "TEXT"),
    ("equipment", "created_by_id", "INT NULL"),
    ("equipment", "emailColaborador", "VARCHAR(255)"),
    ("equipment", "brand", "VARCHAR(100)"),
    ("equipment", "model", "VARCHAR(100)"),
    ("equipment", "identificador", "VARCHAR(255)"),
    ("equipment", "nomeSO", "VARCHAR(255)"),
    ("equipment", "memoriaFisicaTotal", "VARCHAR(100)"),
    ("equipment", "grupoPoliticas", "VARCHAR(100)"),
    ("equipment", "pais", "VARCHAR(100)"),
    ("equipment", "cidade", "VARCHAR(100)"),
    ("equipment", "estadoProvincia", "VARCHAR(100)"),
    ("equipment", "condicaoTermo",
      "ENUM('Assinado - Entrega', 'Assinado - Devolução', 'Pendente', 'N/A') DEFAULT 'N/A'"),
    ("users", "twoFASecret", "VARCHAR(255) NULL"),
    ("users", "is2FAEnabled", "BOOLEAN DEFAULT FALSE"),
    ("users", "avatarUrl", "MEDIUMTEXT"),
    ("equipment_history", "equipment_id", "INT") ]

/-- One of the three targeted fixes at the end of `ensureCriticalSchema`:
`SHOW COLUMNS FROM t LIKE c` (a raised error — e.g. missing table — is
caught), and if the column exists, `ALTER TABLE t MODIFY COLUMN c d`. -/
def fixModify (f : Stmt → Bool) (db : DB) (t c d : String) : DB × List Event :=
  let e1 : List Event := [.repairQuery (.showColumnsLike t c)]
  if f (.showColumnsLike t c) then (db, e1)
  else
    match getTable db t with
    | none => (db, e1)
    | some tbl =>
        if c ∈ columnNames tbl then
          let e2 := e1 ++ [.repairQuery (.modifyColumn t c d)]
          if f (.modifyColumn t c d) then (db, e2)
          else (modifyColumnDB db t c d, e2)
        else (db, e1)

/-- The sequence of `checkAndAddColumn` calls over a list of rules, each
applied to the state left by the previous one, events concatenated in
order. -/
def runRules (f : Stmt → Bool) (db : DB) : List (String × String × String) → DB × List Event
  | [] => (db, [])
  | r :: rest =>
      let q := checkAndAddColumn f db r.1 r.2.1 r.2.2
      let w := runRules f q.1 rest
      (w.1, q.2 ++ w.2)

/-- `ensureCriticalSchema(connection)`: the 24 `checkAndAddColumn` calls in
source order, then the three targeted `MODIFY COLUMN` fixes
(`equipment_history.equipmentId` → nullable, `equipment_history.timestamp`
and `audit_log.timestamp` → `DEFAULT CURRENT_TIMESTAMP`). -/
def ensureCriticalSchema (f : Stmt → Bool) (db : DB) : DB × List Event :=
  let s1 := runRules f db repairRules
  let s2 := fixModify f s1.1 "equipment_history" "equipmentId" "INT NULL"
  let s3 := fixModify f s2.1 "equipment_history" "timestamp" "DATETIME DEFAULT CURRENT_TIMESTAMP"
  let s4 := fixModify f s3.1 "audit_log" "timestamp" "DATETIME DEFAULT CURRENT_TIMESTAMP"
  (s4.1, s1.2 ++ s2.2 ++ s3.2 ++ s4.2)

/-- Model of `bcryptjs.hashSync(plaintext, saltRounds)`.  Real bcrypt draws
a random 16-byte salt on every call and returns a string that embeds the
cost factor, the salt, and the key-derivation digest of the plaintext and
salt (`$2a$<cost>$<salt><digest>`).  The randomly generated salt is made an
explicit parameter; the one-way key-derivation core is abstracted by an
executable digest that, like the real one, depends on the plaintext, the
cost and the salt.  What matters for the theorems is the output's shape:
it is a function of exactly (plaintext, rounds, salt) and it embeds the
salt, so distinct salts give distinct hash strings. -/
def bcryptHashSync (plaintext : String) (rounds salt : Nat) : String :=
  "$2a$" ++ toString rounds ++ "$" ++ toString salt ++ "$"
    ++ toString (plaintext.length * (rounds + 2) + salt)

/-- A migration definition: its caller-assigned id and its SQL payload,
one `Stmt` per statement in the (possibly multi-statement) `sql` string. -/
structure Migration where
  id : Nat
  stmts : List Stmt
deriving DecidableEq, Repr

/-- The seeded administrative account of migration 7:
`INSERT IGNORE INTO users (username, realName, email, password, role)
VALUES ('admin', 'Admin', 'admin@example.com', '<hash>', 'Admin')`, where
`<hash>` is `bcrypt.hashSync("marceloadmin", SALT_ROUNDS)` evaluated while
the migration array literal is being built. -/
def adminSeedUser (rounds salt : Nat) : UserRow :=
  { username := "admin"
    realName := "Admin"
    email := "admin@example.com"
    password := bcryptHashSync "marceloadmin" rounds salt
    role := "Admin" }

/-- The fixed `migrations` array built inside `runMigrations`, in source
order (ids 1..15).  `rounds` is `SALT_ROUNDS` (env default 10) and `salt`
the random salt `bcrypt.hashSync` draws during this build of the array.
Multi-statement strings (ids 8 and 10) become statement lists, matching the
pool's `multipleStatements: true`. -/
def migrations (rounds salt : Nat) : List Migration :=
  [ ⟨1, [.createTable "users"
        [ ⟨"id", "INT AUTO_INCREMENT PRIMARY KEY"⟩,
          ⟨"username", "VARCHAR(255) NOT NULL UNIQUE"⟩,
          ⟨"realName", "VARCHAR(255) NOT NULL"⟩,
          ⟨"email", "VARCHAR(255) NOT NULL UNIQUE"⟩,
          ⟨"password", "VARCHAR(255) NOT NULL"⟩,
          ⟨"role", "ENUM('Admin', 'User Manager', 'User') NOT NULL"⟩,
          ⟨"lastLogin", "DATETIME"⟩,
          ⟨"is2FAEnabled", "BOOLEAN DEFAULT FALSE"⟩,
          ⟨"twoFASecret", "VARCHAR(255)"⟩,
          ⟨"ssoProvider", "VARCHAR(50) NULL"⟩,
          ⟨"avatarUrl", "MEDIUMTEXT"⟩ ] []]⟩,
    ⟨2, [.createTable "equipment"
        [ ⟨"id", "INT AUTO_INCREMENT PRIMARY KEY"⟩,
          ⟨"equipamento", "VARCHAR(255) NOT NULL"⟩,
          ⟨"garantia", "VARCHAR(255)"⟩,
          ⟨"patrimonio", "VARCHAR(255) UNIQUE"⟩,
          ⟨"serial", "VARCHAR(255) UNIQUE"⟩,
          ⟨"usuarioAtual", "VARCHAR(255)"⟩,
          ⟨"usuarioAnterior", "VARCHAR(255)"⟩,
          ⟨"local", "VARCHAR(255)"⟩,
          ⟨"setor", "VARCHAR(255)"⟩,
          ⟨"dataEntregaUsuario", "VARCHAR(255)"⟩,
          ⟨"status", "VARCHAR(255)"⟩,
          ⟨"dataDevolucao", "VARCHAR(255)"⟩,
          ⟨"tipo", "VARCHAR(255)"⟩,
          ⟨"notaCompra", "VARCHAR(255)"⟩,
          ⟨"notaPlKm", "VARCHAR(255)"⟩,
          ⟨"termoResponsabilidade", "VARCHAR(255)"⟩,
          ⟨"foto", "TEXT"⟩,
          ⟨"qrCode", "TEXT"⟩,
          ⟨"observacoes", "TEXT"⟩,
          ⟨"approval_status", "VARCHAR(50) DEFAULT 'approved'"⟩,
          ⟨"rejection_reason", "TEXT"⟩ ] []]⟩,
    ⟨3, [.createTable "licenses"
        [ ⟨"id", "INT AUTO_INCREMENT PRIMARY KEY"⟩,
          ⟨"produto", "VARCHAR(255) NOT NULL"⟩,
          ⟨"tipoLicenca", "VARCHAR(255)"⟩,
          ⟨"chaveSerial", "VARCHAR(255) NOT NULL"⟩,
          ⟨"dataExpiracao", "VARCHAR(255)"⟩,
          ⟨"usuario", "VARCHAR(255) NOT NULL"⟩,
          ⟨"cargo", "VARCHAR(255)"⟩,
          ⟨"setor", "VARCHAR(255)"⟩,
          ⟨"gestor", "VARCHAR(255)"⟩,
          ⟨"centroCusto", "VARCHAR(255)"⟩,
          ⟨"contaRazao", "VARCHAR(255)"⟩,
          ⟨"nomeComputador", "VARCHAR(255)"⟩,
          ⟨"numeroChamado", "VARCHAR(255)"⟩,
          ⟨"observacoes", "TEXT"⟩,
          ⟨"approval_status", "VARCHAR(50) DEFAULT 'approved'"⟩,
          ⟨"rejection_reason", "TEXT"⟩ ] []]⟩,
    ⟨4, [.createTable "equipment_history"
        [ ⟨"id", "INT AUTO_INCREMENT PRIMARY KEY"⟩,
          ⟨"equipment_id", "INT"⟩,
          ⟨"timestamp", "DATETIME DEFAULT CURRENT_TIMESTAMP"⟩,
          ⟨"changedBy", "VARCHAR(255)"⟩,
          ⟨"changeType", "VARCHAR(255)"⟩,
          ⟨"from_value", "TEXT"⟩,
          ⟨"to_value", "TEXT"⟩ ] ["equipment"]]⟩,
    ⟨5, [.createTable "audit_log"
        [ ⟨"id", "INT AUTO_INCREMENT PRIMARY KEY"⟩,
          ⟨"timestamp", "DATETIME DEFAULT CURRENT_TIMESTAMP"⟩,
          ⟨"username", "VARCHAR(255)"⟩,
          ⟨"action_type", "VARCHAR(255)"⟩,
          ⟨"target_type", "VARCHAR(255)"⟩,
          ⟨"target_id", "VARCHAR(255)"⟩,
          ⟨"details", "TEXT"⟩ ] []]⟩,
    ⟨6, [.createTable "app_config"
        [ ⟨"id", "INT AUTO_INCREMENT PRIMARY KEY"⟩,
          ⟨"config_key", "VARCHAR(255) NOT NULL UNIQUE"⟩,
          ⟨"config_value", "TEXT"⟩ ] []]⟩,
    ⟨7, [.insertIgnoreUser (adminSeedUser rounds salt)]⟩,
    ⟨8, [.insertIgnoreConfig "companyName" (some "MRR INFORMATICA"),
         .insertIgnoreConfig "isSsoEnabled" (some "false")]⟩,
    ⟨9, [.addColumn "equipment" "emailColaborador" "VARCHAR(255)"]⟩,
    ⟨10, [.insertIgnoreConfig "termo_entrega_template" none,
          .insertIgnoreConfig "termo_devolucao_template" none]⟩,
    ⟨11, [.addColumn "users" "avatarUrl" "MEDIUMTEXT"]⟩,
    ⟨12, [.modifyColumn "users" "avatarUrl" "MEDIUMTEXT"]⟩,
    ⟨13, [.addColumn "licenses" "created_by_id" "INT NULL"]⟩,
    ⟨14, [.addColumn "equipment" "created_by_id" "INT NULL"]⟩,
    ⟨15, [.insertIgnoreConfig "is2faEnabled" (some "false")]⟩ ]

/-- Execute one migration's (possibly multi-statement) SQL payload under
fault oracle `f`, emitting a `migQuery mid` event per statement issued.
With `multipleStatements`, the statements run sequentially server-side and
an error aborts the remaining ones while the effects of the earlier
statements persist (no transaction), so on failure the partially updated
state is returned together with `false`. -/
def execPayload (f : Stmt → Bool) (mid : Nat) :
    DB → List Stmt → Bool × DB × List Event
  | db, [] => (true, db, [])
  | db, s :: rest =>
      if f s then (false, db, [.migQuery mid s])
      else
        match execStmt db s with
        | .error _ => (false, db, [.migQuery mid s])
        | .ok db1 =>
            let w := execPayload f mid db1 rest
            (w.1, w.2.1, .migQuery mid s :: w.2.2)

/-- One iteration of the migration loop: skip entirely when the id is in
the set read at the start of the run; otherwise run the payload and, on
success, `INSERT INTO migrations (id)`.  The `try`/`catch` around the pair
of queries logs a failure (`migFailed`) and moves on, leaving the id
unrecorded. -/
def migStep (f : Stmt → Bool) (ids0 : List Nat) (db : DB) (m : Migration) : DB × List Event :=
  if m.id ∈ ids0 then (db, [])
  else
    match execPayload f m.id db m.stmts with
    | (true, db1, evs) =>
        match execStmt db1 (.insertMigrationId m.id) with
        | .ok db2 => (db2, evs ++ [.recordApplied m.id])
        | .error _ => (db1, evs ++ [.migFailed m.id])
    | (false, db1, evs) => (db1, evs ++ [.migFailed m.id])

/-- The migration loop over a list of migration definitions, against the
applied-id set `ids0` read once at the start of the run. -/
def runList (f : Stmt → Bool) (ids0 : List Nat) (db : DB) : List Migration → DB × List Event
  | [] => (db, [])
  | m :: rest =>
      let q := migStep f ids0 db m
      let w := runList f ids0 q.1 rest
      (w.1, q.2 ++ w.2)

/-- Result of one startup run: final database and the emitted trace. -/
structure RunResult where
  db : DB
  trace : List Event
deriving DecidableEq, Repr

/-- `runMigrations()`: acquire a pooled connection, `CREATE TABLE IF NOT
EXISTS migrations (id INT PRIMARY KEY)`, `SELECT id FROM migrations` into
the applied-id set, build the `migrations` array (this is where the bcrypt
hash of the admin seed is computed), run `ensureCriticalSchema`, then the
migration loop, and release the connection in the `finally`. -/
def runMigrations (f : Stmt → Bool) (rounds salt : Nat) (db0 : DB) : RunResult :=
  match execStmt db0 (.createTable "migrations" [⟨"id", "INT PRIMARY KEY"⟩] []) with
  | .error _ => ⟨db0, [.connect, .release]⟩
  | .ok db1 =>
      let ids0 := db1.appliedIds
      let defs := migrations rounds salt
      let rep := ensureCriticalSchema f db1
      let mig := runList f ids0 rep.1 defs
      ⟨mig.1, [.connect, .createBookkeeping, .readApplied ids0]
                ++ rep.2 ++ mig.2 ++ [.release]⟩

/-- A configuration for one startup run: its fault oracle, `SALT_ROUNDS`,
and the salt bcrypt draws during that run's build of the migration array. -/
structure RunCfg where
  f : Stmt → Bool
  rounds : Nat
  salt : Nat

/-- The results of a sequence of startup runs, in order. -/
def runSeqResults : List RunCfg → DB → List RunResult
  | [], _ => []
  | c :: cs, db =>
      let r := runMigrations c.f c.rounds c.salt db
      r :: runSeqResults cs r.db

/-- The migration id an event belongs to: `some mid` exactly for the events
emitted by the migration loop while processing migration `mid`. -/
def eventMid : Event → Option Nat
  | .migQuery mid _ => some mid
  | .recordApplied mid => some mid
  | .migFailed mid => some mid
  | _ => none

/-- Whether an event belongs to migration id `i` (a statement issued for
it, its bookkeeping insert, or its logged failure). -/
def touchesMig (i : Nat) (e : Event) : Bool :=
  eventMid e = some i

/-- Events emitted by the repair pass. -/
def isRepairEvent : Event → Bool
  | .repairQuery _ => true
  | _ => false

/-- Events emitted by the migration loop. -/
def isMigEvent (e : Event) : Bool :=
  (eventMid e).isSome

/-- Whether a statement writes the `migrations` bookkeeping table.  No
migration payload does — only the runner's own record step. -/
def touchesBookkeeping : Stmt → Bool
  | .insertMigrationId _ => true
  | _ => false

/-- The state after the runner's `CREATE TABLE IF NOT EXISTS migrations`. -/
def withBookkeeping (db : DB) : DB :=
  if tableExists db "migrations" then db
  else { db with tables := db.tables ++ [("migrations", ⟨[⟨"id", "INT PRIMARY KEY"⟩]⟩)] }

/-- The `readApplied` trace event (used to state the step ordering). -/
def isReadAppliedEvent : Event → Bool
  | .readApplied _ => true
  | _ => false

/-- A small concrete database used to instantiate repair-rule behavior: a
`licenses` table with only its `id` column, and nothing else. -/
def wdb6 : DB := ⟨[("licenses", ⟨[⟨"id", "INT"⟩]⟩)], [], [], []⟩

/-- A repair rule is satisfied in a state: if its table exists, its column
is present. -/
def ruleStable (db : DB) (r : String × String × String) : Prop :=
  ∀ tbl, getTable db r.1 = some tbl → r.2.1 ∈ columnNames tbl

/-- Every column named `c` of table `t` (if the table exists) carries
definition `d`. -/
def colDefIs (db : DB) (t c d : String) : Prop :=
  ∀ tbl, getTable db t = some tbl → ∀ col ∈ tbl.cols, col.name = c → col.defn = d

/-- Table `t` exists and has a column named `c`. -/
def hasCol (db : DB) (t c : String) : Prop :=
  ∃ tbl, getTable db t = some tbl ∧ c ∈ columnNames tbl

/-- The schema state left by one fault-free repair pass. -/
def repairPass (db : DB) : DB := (ensureCriticalSchema noFaults db).1

/-! ### Basic lemmas about the statement semantics -/

theorem addColumnToDB_appliedIds (db : DB) (t c d : String) :
    (addColumnToDB db t c d).appliedIds = db.appliedIds := by
  unfold addColumnToDB; split <;> rfl

theorem addColumnToDB_userRows (db : DB) (t c d : String) :
    (addColumnToDB db t c d).userRows = db.userRows := by
  unfold addColumnToDB; split <;> rfl

theorem addColumnToDB_configRows (db : DB) (t c d : String) :
    (addColumnToDB db t c d).configRows = db.configRows := by
  unfold addColumnToDB; split <;> rfl

theorem modifyColumnDB_appliedIds (db : DB) (t c d : String) :
    (modifyColumnDB db t c d).appliedIds = db.appliedIds := by
  unfold modifyColumnDB; split <;> rfl

theorem modifyColumnDB_userRows (db : DB) (t c d : String) :
    (modifyColumnDB db t c d).userRows = db.userRows := by
  unfold modifyColumnDB; split <;> rfl

theorem modifyColumnDB_configRows (db : DB) (t c d : String) :
    (modifyColumnDB db t c d).configRows = db.configRows := by
  unfold modifyColumnDB; split <;> rfl

/-- A successfully executed statement that is not the runner's bookkeeping
insert leaves the `migrations` row set unchanged. -/
theorem execStmt_ok_appliedIds (db db' : DB) (s : Stmt)
    (hs : touchesBookkeeping s = false) (h : execStmt db s = Except.ok db') :
    db'.appliedIds = db.appliedIds := by
  cases s <;> simp only [execStmt, touchesBookkeeping] at h hs <;>
    (try split at h) <;> (try split at h) <;>
    (try cases h) <;>
    simp_all [addColumnToDB_appliedIds, modifyColumnDB_appliedIds]

/-! ### Lemmas about the migration loop -/

/-- Every event emitted while executing migration `mid`'s payload is a
`migQuery mid` event. -/
theorem execPayload_events (f : Stmt → Bool) (mid : Nat) (db : DB) (l : List Stmt) :
    ∀ e ∈ (execPayload f mid db l).2.2, ∃ s, e = Event.migQuery mid s := by
  induction l generalizing db with
  | nil => intro e he; simp [execPayload] at he
  | cons s rest ih =>
      intro e he
      simp only [execPayload] at he
      split at he
      · simp at he; exact ⟨s, he⟩
      · split at he
        · simp at he; exact ⟨s, he⟩
        · simp at he
          rcases he with he | he
          · exact ⟨s, he⟩
          · exact ih _ e he

/-- A payload made only of non-bookkeeping statements leaves the
`migrations` row set unchanged, whether it succeeds or fails. -/
theorem execPayload_appliedIds (f : Stmt → Bool) (mid : Nat) (db : DB) (l : List Stmt)
    (hl : ∀ s ∈ l, touchesBookkeeping s = false) :
    (execPayload f mid db l).2.1.appliedIds = db.appliedIds := by
  induction l generalizing db with
  | nil => rfl
  | cons s rest ih =>
      simp only [execPayload]
      split
      · rfl
      · split
        · rfl
        · rename_i db1 h
          have h1 : db1.appliedIds = db.appliedIds :=
            execStmt_ok_appliedIds db db1 s (hl s (by simp)) h
          have h2 := ih db1 (fun s hs => hl s (by simp [hs]))
          simp [h2, h1]

theorem execPayload_no_record (f : Stmt → Bool) (mid : Nat) (db : DB) (l : List Stmt) (i : Nat) :
    Event.recordApplied i ∉ (execPayload f mid db l).2.2 := by
  intro h
  obtain ⟨s, hs⟩ := execPayload_events f mid db l _ h
  cases hs

theorem execPayload_no_failed (f : Stmt → Bool) (mid : Nat) (db : DB) (l : List Stmt) (i : Nat) :
    Event.migFailed i ∉ (execPayload f mid db l).2.2 := by
  intro h
  obtain ⟨s, hs⟩ := execPayload_events f mid db l _ h
  cases hs

/-- The first statement of a nonempty payload is always issued. -/
theorem execPayload_head (f : Stmt → Bool) (mid : Nat) (db : DB) (s : Stmt) (rest : List Stmt) :
    Event.migQuery mid s ∈ (execPayload f mid db (s :: rest)).2.2 := by
  simp only [execPayload]
  split
  · simp
  · split <;> simp

/-- A skipped migration (id already recorded at the start of the run)
issues nothing and changes nothing. -/
theorem migStep_skip (f : Stmt → Bool) (ids0 : List Nat) (db : DB) (m : Migration)
    (h : m.id ∈ ids0) : migStep f ids0 db m = (db, []) := by
  simp [migStep, h]

/-- Every event the loop emits while processing migration `m` carries
`m.id`. -/
theorem migStep_events_mid (f : Stmt → Bool) (ids0 : List Nat) (db : DB) (m : Migration) :
    ∀ e ∈ (migStep f ids0 db m).2, eventMid e = some m.id := by
  unfold migStep
  split
  · simp
  · split
    · rename_i db1 evs heq
      split
      · intro e he
        simp at he
        rcases he with he | he
        · have h2 : evs = (execPayload f m.id db m.stmts).2.2 := by rw [heq]
          obtain ⟨s, rfl⟩ := execPayload_events f m.id db m.stmts e (h2 ▸ he)
          rfl
        · subst he; rfl
      · intro e he
        simp at he
        rcases he with he | he
        · have h2 : evs = (execPayload f m.id db m.stmts).2.2 := by rw [heq]
          obtain ⟨s, rfl⟩ := execPayload_events f m.id db m.stmts e (h2 ▸ he)
          rfl
        · subst he; rfl
    · rename_i db1 evs heq
      intro e he
      simp at he
      rcases he with he | he
      · have h2 : evs = (execPayload f m.id db m.stmts).2.2 := by rw [heq]
        obtain ⟨s, rfl⟩ := execPayload_events f m.id db m.stmts e (h2 ▸ he)
        rfl
      · subst he; rfl

/-- Characterization of the bookkeeping row set after one loop iteration
(for payloads that do not themselves write the bookkeeping table, which
holds of every defined migration): a row id is present afterwards iff it
was present before or this iteration recorded it — and the record event is
emitted exactly on payload success. -/
theorem migStep_mem_applied (f : Stmt → Bool) (ids0 : List Nat) (db : DB) (m : Migration)
    (hgood : ∀ s ∈ m.stmts, touchesBookkeeping s = false) (i : Nat) :
    i ∈ (migStep f ids0 db m).1.appliedIds ↔
      i ∈ db.appliedIds ∨ Event.recordApplied i ∈ (migStep f ids0 db m).2 := by
  have hpl := execPayload_appliedIds f m.id db m.stmts hgood
  unfold migStep
  split
  · simp
  · split
    · rename_i db1 evs heq
      have hdb1 : db1.appliedIds = db.appliedIds := by
        have : db1 = (execPayload f m.id db m.stmts).2.1 := by rw [heq]
        rw [this, hpl]
      have hevs : evs = (execPayload f m.id db m.stmts).2.2 := by rw [heq]
      have hnr : Event.recordApplied i ∉ evs :=
        hevs ▸ execPayload_no_record f m.id db m.stmts i
      split
      · rename_i db2 hok
        simp only [execStmt] at hok
        split at hok
        · split at hok
          · cases hok
          · cases hok
            simp [hdb1, hnr]
        · cases hok
      · simp [hdb1, hnr]
    · rename_i db1 evs heq
      have hdb1 : db1.appliedIds = db.appliedIds := by
        have : db1 = (execPayload f m.id db m.stmts).2.1 := by rw [heq]
        rw [this, hpl]
      have hevs : evs = (execPayload f m.id db m.stmts).2.2 := by rw [heq]
      have hnr : Event.recordApplied i ∉ evs :=
        hevs ▸ execPayload_no_record f m.id db m.stmts i
      simp [hdb1, hnr]

/-- One loop iteration either leaves the bookkeeping row list unchanged or
appends exactly its own id — rows are never updated, removed or reordered. -/
theorem migStep_applied_extend (f : Stmt → Bool) (ids0 : List Nat) (db : DB) (m : Migration)
    (hgood : ∀ s ∈ m.stmts, touchesBookkeeping s = false) :
    (migStep f ids0 db m).1.appliedIds = db.appliedIds ∨
      (migStep f ids0 db m).1.appliedIds = db.appliedIds ++ [m.id] := by
  have hpl := execPayload_appliedIds f m.id db m.stmts hgood
  unfold migStep
  split
  · exact Or.inl rfl
  · split
    · rename_i db1 evs heq
      have hdb1 : db1.appliedIds = db.appliedIds := by
        have : db1 = (execPayload f m.id db m.stmts).2.1 := by rw [heq]
        rw [this, hpl]
      split
      · rename_i db2 hok
        simp only [execStmt] at hok
        split at hok
        · split at hok
          · cases hok
          · cases hok; exact Or.inr (by simp [hdb1])
        · cases hok
      · exact Or.inl hdb1
    · rename_i db1 evs heq
      have : db1 = (execPayload f m.id db m.stmts).2.1 := by rw [heq]
      exact Or.inl (by rw [this, hpl])

/-- A logged migration failure in one loop iteration means: it was this
iteration's migration, its id was pending, the bookkeeping rows are
unchanged, and no record event was emitted. -/
theorem migStep_failed (f : Stmt → Bool) (ids0 : List Nat) (db : DB) (m : Migration)
    (hgood : ∀ s ∈ m.stmts, touchesBookkeeping s = false) (i : Nat)
    (h : Event.migFailed i ∈ (migStep f ids0 db m).2) :
    i = m.id ∧ m.id ∉ ids0 ∧ (migStep f ids0 db m).1.appliedIds = db.appliedIds ∧
      Event.recordApplied i ∉ (migStep f ids0 db m).2 := by
  have hpl := execPayload_appliedIds f m.id db m.stmts hgood
  revert h
  unfold migStep
  split
  · intro h; simp at h
  · rename_i hnotin
    split
    · rename_i db1 evs heq
      have hevs : evs = (execPayload f m.id db m.stmts).2.2 := by rw [heq]
      have hdb1 : db1.appliedIds = db.appliedIds := by
        have : db1 = (execPayload f m.id db m.stmts).2.1 := by rw [heq]
        rw [this, hpl]
      have hnf : Event.migFailed i ∉ evs :=
        hevs ▸ execPayload_no_failed f m.id db m.stmts i
      have hnr : Event.recordApplied i ∉ evs :=
        hevs ▸ execPayload_no_record f m.id db m.stmts i
      split
      · rename_i db2 hok
        intro h
        simp only [List.mem_append, List.mem_singleton] at h
        rcases h with h | h
        · exact absurd h hnf
        · cases h
      · intro h
        simp only [List.mem_append, List.mem_singleton] at h
        rcases h with h | h
        · exact absurd h hnf
        · cases h
          exact ⟨rfl, hnotin, hdb1, by simp [hnr]⟩
    · rename_i db1 evs heq
      have hevs : evs = (execPayload f m.id db m.stmts).2.2 := by rw [heq]
      have hdb1 : db1.appliedIds = db.appliedIds := by
        have : db1 = (execPayload f m.id db m.stmts).2.1 := by rw [heq]
        rw [this, hpl]
      have hnf : Event.migFailed i ∉ evs :=
        hevs ▸ execPayload_no_failed f m.id db m.stmts i
      have hnr : Event.recordApplied i ∉ evs :=
        hevs ▸ execPayload_no_record f m.id db m.stmts i
      intro h
      simp only [List.mem_append, List.mem_singleton] at h
      rcases h with h | h
      · exact absurd h hnf
      · cases h
        exact ⟨rfl, hnotin, hdb1, by simp [hnr]⟩

/-- A record event in one loop iteration belongs to this iteration's
migration and implies its id was pending. -/
theorem migStep_record (f : Stmt → Bool) (ids0 : List Nat) (db : DB) (m : Migration) (i : Nat)
    (h : Event.recordApplied i ∈ (migStep f ids0 db m).2) :
    i = m.id ∧ m.id ∉ ids0 := by
  unfold migStep at h
  split at h
  · simp at h
  · rename_i hnotin
    split at h
    · rename_i db1 evs heq
      have hevs : evs = (execPayload f m.id db m.stmts).2.2 := by rw [heq]
      have hnr : Event.recordApplied i ∉ evs :=
        hevs ▸ execPayload_no_record f m.id db m.stmts i
      split at h
      · simp only [List.mem_append, List.mem_singleton] at h
        rcases h with h | h
        · exact absurd h hnr
        · cases h; exact ⟨rfl, hnotin⟩
      · simp only [List.mem_append, List.mem_singleton] at h
        rcases h with h | h
        · exact absurd h hnr
        · cases h
    · rename_i db1 evs heq
      have hevs : evs = (execPayload f m.id db m.stmts).2.2 := by rw [heq]
      have hnr : Event.recordApplied i ∉ evs :=
        hevs ▸ execPayload_no_record f m.id db m.stmts i
      simp only [List.mem_append, List.mem_singleton] at h
      rcases h with h | h
      · exact absurd h hnr
      · cases h

/-- A pending migration with a nonempty payload is always attempted: its
first statement is issued. -/
theorem migStep_attempt (f : Stmt → Bool) (ids0 : List Nat) (db : DB) (m : Migration)
    (hnotin : m.id ∉ ids0) (hne : m.stmts ≠ []) :
    ∃ s, Event.migQuery m.id s ∈ (migStep f ids0 db m).2 := by
  rcases hm : m.stmts with _ | ⟨s, rest⟩
  · exact absurd hm hne
  · have hhead := execPayload_head f m.id db s rest
    unfold migStep
    split
    · exact absurd (by assumption) hnotin
    · split
      · rename_i db1 evs heq
        have hevs : evs = (execPayload f m.id db m.stmts).2.2 := by rw [heq]
        refine ⟨s, ?_⟩
        split
        · simp only [List.mem_append]
          exact Or.inl (hevs ▸ (hm ▸ hhead))
        · simp only [List.mem_append]
          exact Or.inl (hevs ▸ (hm ▸ hhead))
      · rename_i db1 evs heq
        have hevs : evs = (execPayload f m.id db m.stmts).2.2 := by rw [heq]
        refine ⟨s, ?_⟩
        simp only [List.mem_append]
        exact Or.inl (hevs ▸ (hm ▸ hhead))

/-! ### Lemmas about the whole migration loop -/

/-- Ids recorded at the start of the run are untouched by the loop: no
statement is issued for them, nothing is recorded for them, no failure is
logged for them. -/
theorem runList_no_touch (f : Stmt → Bool) (ids0 : List Nat) (db : DB) (l : List Migration)
    (i : Nat) (hi : i ∈ ids0) :
    ∀ e ∈ (runList f ids0 db l).2, touchesMig i e = false := by
  induction l generalizing db with
  | nil => intro e he; simp [runList] at he
  | cons m rest ih =>
      intro e he
      simp only [runList, List.mem_append] at he
      rcases he with he | he
      · by_cases hm : m.id ∈ ids0
        · rw [migStep_skip f ids0 db m hm] at he
          simp at he
        · have := migStep_events_mid f ids0 db m e he
          have hne : m.id ≠ i := fun h => hm (h ▸ hi)
          simp [touchesMig, this, hne]
      · exact ih _ e he

/-- Characterization of the bookkeeping rows after the loop (for payloads
that never write the bookkeeping table): an id is present afterwards iff it
was present before or a record event for it was emitted. -/
theorem runList_mem_applied (f : Stmt → Bool) (ids0 : List Nat) (db : DB) (l : List Migration)
    (hgood : ∀ m ∈ l, ∀ st ∈ m.stmts, touchesBookkeeping st = false) (i : Nat) :
    i ∈ (runList f ids0 db l).1.appliedIds ↔
      i ∈ db.appliedIds ∨ Event.recordApplied i ∈ (runList f ids0 db l).2 := by
  induction l generalizing db with
  | nil => simp [runList]
  | cons m rest ih =>
      have h1 := migStep_mem_applied f ids0 db m (hgood m (by simp)) i
      have h2 := ih (migStep f ids0 db m).1 (fun m' hm' => hgood m' (by simp [hm']))
      simp only [runList, List.mem_append]
      rw [h2, h1]
      tauto

/-- The loop only ever appends to the bookkeeping row list. -/
theorem runList_applied_append (f : Stmt → Bool) (ids0 : List Nat) (db : DB) (l : List Migration)
    (hgood : ∀ m ∈ l, ∀ st ∈ m.stmts, touchesBookkeeping st = false) :
    ∃ tail, (runList f ids0 db l).1.appliedIds = db.appliedIds ++ tail := by
  induction l generalizing db with
  | nil => exact ⟨[], by simp [runList]⟩
  | cons m rest ih =>
      obtain ⟨t2, h2⟩ := ih (migStep f ids0 db m).1 (fun m' hm' => hgood m' (by simp [hm']))
      rcases migStep_applied_extend f ids0 db m (hgood m (by simp)) with h1 | h1
      · exact ⟨t2, by simp only [runList]; rw [h2, h1]⟩
      · exact ⟨[m.id] ++ t2, by simp only [runList]; rw [h2, h1]; simp⟩

/-- A record event of the loop belongs to a migration in the list whose id
was pending at the start of the run. -/
theorem runList_record_pending (f : Stmt → Bool) (ids0 : List Nat) (db : DB) (l : List Migration)
    (i : Nat) (h : Event.recordApplied i ∈ (runList f ids0 db l).2) :
    i ∉ ids0 ∧ i ∈ l.map Migration.id := by
  induction l generalizing db with
  | nil => simp [runList] at h
  | cons m rest ih =>
      simp only [runList, List.mem_append] at h
      rcases h with h | h
      · obtain ⟨rfl, hnotin⟩ := migStep_record f ids0 db m i h
        exact ⟨hnotin, by simp⟩
      · obtain ⟨hnotin, hmem⟩ := ih _ h
        exact ⟨hnotin, by simp [hmem]⟩

/-- A failure event of the loop belongs to a migration in the list whose id
was pending at the start of the run. -/
theorem runList_failed_pending (f : Stmt → Bool) (ids0 : List Nat) (db : DB) (l : List Migration)
    (hgood : ∀ m ∈ l, ∀ st ∈ m.stmts, touchesBookkeeping st = false)
    (i : Nat) (h : Event.migFailed i ∈ (runList f ids0 db l).2) :
    i ∉ ids0 ∧ i ∈ l.map Migration.id := by
  induction l generalizing db with
  | nil => simp [runList] at h
  | cons m rest ih =>
      simp only [runList, List.mem_append] at h
      rcases h with h | h
      · obtain ⟨rfl, hnotin, -, -⟩ := migStep_failed f ids0 db m (hgood m (by simp)) i h
        exact ⟨hnotin, by simp⟩
      · obtain ⟨hnotin, hmem⟩ := ih _ (fun m' hm' => hgood m' (by simp [hm'])) h
        exact ⟨hnotin, by simp [hmem]⟩

/-- With distinct migration ids, the loop never both records and fails the
same id in one run. -/
theorem runList_failed_norecord (f : Stmt → Bool) (ids0 : List Nat) (db : DB)
    (l : List Migration)
    (hgood : ∀ m ∈ l, ∀ st ∈ m.stmts, touchesBookkeeping st = false)
    (hnodup : (l.map Migration.id).Nodup) (i : Nat)
    (hf : Event.migFailed i ∈ (runList f ids0 db l).2)
    (hr : Event.recordApplied i ∈ (runList f ids0 db l).2) : False := by
  induction l generalizing db with
  | nil => simp [runList] at hf
  | cons m rest ih =>
      simp only [List.map_cons, List.nodup_cons] at hnodup
      simp only [runList, List.mem_append] at hf hr
      rcases hf with hf | hf
      · obtain ⟨rfl, -, -, hnorec⟩ := migStep_failed f ids0 db m (hgood m (by simp)) i hf
        rcases hr with hr | hr
        · exact hnorec hr
        · obtain ⟨-, hmem⟩ := runList_record_pending f ids0 _ rest _ hr
          exact hnodup.1 hmem
      · rcases hr with hr | hr
        · obtain ⟨rfl, -⟩ := migStep_record f ids0 db m i hr
          obtain ⟨-, hmem⟩ :=
            runList_failed_pending f ids0 _ rest (fun m' hm' => hgood m' (by simp [hm'])) _ hf
          exact hnodup.1 hmem
        · exact ih _ (fun m' hm' => hgood m' (by simp [hm'])) hnodup.2 hf hr

/-- Every pending migration with a nonempty payload is attempted by the
loop, whatever happened to the migrations before it. -/
theorem runList_attempt (f : Stmt → Bool) (ids0 : List Nat) (db : DB) (l : List Migration)
    (m : Migration) (hm : m ∈ l) (hnotin : m.id ∉ ids0) (hne : m.stmts ≠ []) :
    ∃ s, Event.migQuery m.id s ∈ (runList f ids0 db l).2 := by
  induction l generalizing db with
  | nil => simp at hm
  | cons m0 rest ih =>
      rcases List.mem_cons.mp hm with rfl | hm0
      · obtain ⟨s, hs⟩ := migStep_attempt f ids0 db m hnotin hne
        exact ⟨s, by simp only [runList, List.mem_append]; exact Or.inl hs⟩
      · obtain ⟨s, hs⟩ := ih (migStep f ids0 db m0).1 hm0
        exact ⟨s, by simp only [runList, List.mem_append]; exact Or.inr hs⟩

/-! ### Facts about the fixed migration list -/

/-- The defined migration id set, in list order, for any build. -/
theorem migrations_ids (rounds salt : Nat) :
    (migrations rounds salt).map Migration.id =
      [1, 2, 3, 4, 5, 6, 7, 8, 9, 10, 11, 12, 13, 14, 15] := rfl

/-- No migration payload writes the bookkeeping table itself. -/
theorem migrations_good (rounds salt : Nat) :
    ∀ m ∈ migrations rounds salt, ∀ st ∈ m.stmts, touchesBookkeeping st = false := by
  intro m hm
  fin_cases hm <;> (intro st hst) <;> fin_cases hst <;> rfl

/-- Every defined migration has a nonempty payload. -/
theorem migrations_nonempty (rounds salt : Nat) :
    ∀ m ∈ migrations rounds salt, m.stmts ≠ [] := by
  intro m hm
  fin_cases hm <;> simp

/-! ### Lemmas about the repair pass -/

theorem checkAndAddColumn_rows (f : Stmt → Bool) (db : DB) (t c d : String) :
    (checkAndAddColumn f db t c d).1.appliedIds = db.appliedIds ∧
      (checkAndAddColumn f db t c d).1.userRows = db.userRows ∧
      (checkAndAddColumn f db t c d).1.configRows = db.configRows := by
  unfold checkAndAddColumn
  split
  · exact ⟨rfl, rfl, rfl⟩
  · split
    · exact ⟨rfl, rfl, rfl⟩
    · split
      · exact ⟨rfl, rfl, rfl⟩
      · split
        · exact ⟨rfl, rfl, rfl⟩
        · split
          · exact ⟨rfl, rfl, rfl⟩
          · exact ⟨addColumnToDB_appliedIds db t c d, addColumnToDB_userRows db t c d,
              addColumnToDB_configRows db t c d⟩

theorem fixModify_rows (f : Stmt → Bool) (db : DB) (t c d : String) :
    (fixModify f db t c d).1.appliedIds = db.appliedIds ∧
      (fixModify f db t c d).1.userRows = db.userRows ∧
      (fixModify f db t c d).1.configRows = db.configRows := by
  unfold fixModify
  split
  · exact ⟨rfl, rfl, rfl⟩
  · split
    · exact ⟨rfl, rfl, rfl⟩
    · split
      · split
        · exact ⟨rfl, rfl, rfl⟩
        · exact ⟨modifyColumnDB_appliedIds db t c d, modifyColumnDB_userRows db t c d,
            modifyColumnDB_configRows db t c d⟩
      · exact ⟨rfl, rfl, rfl⟩

theorem runRules_rows (f : Stmt → Bool) (db : DB) (rules : List (String × String × String)) :
    (runRules f db rules).1.appliedIds = db.appliedIds ∧
      (runRules f db rules).1.userRows = db.userRows ∧
      (runRules f db rules).1.configRows = db.configRows := by
  induction rules generalizing db with
  | nil => exact ⟨rfl, rfl, rfl⟩
  | cons r rest ih =>
      have h1 := checkAndAddColumn_rows f db r.1 r.2.1 r.2.2
      have h2 := ih (checkAndAddColumn f db r.1 r.2.1 r.2.2).1
      simp only [runRules]
      exact ⟨h2.1.trans h1.1, h2.2.1.trans h1.2.1, h2.2.2.trans h1.2.2⟩

/-- The repair pass never touches the row stores: not the bookkeeping rows,
not the user rows, not the config rows. -/
theorem ensureCriticalSchema_rows (f : Stmt → Bool) (db : DB) :
    (ensureCriticalSchema f db).1.appliedIds = db.appliedIds ∧
      (ensureCriticalSchema f db).1.userRows = db.userRows ∧
      (ensureCriticalSchema f db).1.configRows = db.configRows := by
  unfold ensureCriticalSchema
  have h1 := runRules_rows f db repairRules
  have h2 := fixModify_rows f (runRules f db repairRules).1
    "equipment_history" "equipmentId" "INT NULL"
  have h3 := fixModify_rows f
    (fixModify f (runRules f db repairRules).1 "equipment_history" "equipmentId" "INT NULL").1
    "equipment_history" "timestamp" "DATETIME DEFAULT CURRENT_TIMESTAMP"
  have h4 := fixModify_rows f
    (fixModify f
      (fixModify f (runRules f db repairRules).1 "equipment_history" "equipmentId" "INT NULL").1
      "equipment_history" "timestamp" "DATETIME DEFAULT CURRENT_TIMESTAMP").1
    "audit_log" "timestamp" "DATETIME DEFAULT CURRENT_TIMESTAMP"
  refine ⟨?_, ?_, ?_⟩
  · exact (h4.1.trans (h3.1.trans h2.1)).trans h1.1
  · exact (h4.2.1.trans (h3.2.1.trans h2.2.1)).trans h1.2.1
  · exact (h4.2.2.trans (h3.2.2.trans h2.2.2)).trans h1.2.2

theorem checkAndAddColumn_events (f : Stmt → Bool) (db : DB) (t c d : String) :
    ∀ e ∈ (checkAndAddColumn f db t c d).2, isRepairEvent e = true := by
  unfold checkAndAddColumn
  split
  · intro e he; simp at he; subst he; rfl
  · split
    · intro e he; simp at he; subst he; rfl
    · split
      · intro e he; simp at he; rcases he with he | he <;> (subst he; rfl)
      · split
        · intro e he; simp at he; rcases he with he | he <;> (subst he; rfl)
        · split <;>
          · intro e he; simp at he; rcases he with he | he | he <;> (subst he; rfl)

theorem fixModify_events (f : Stmt → Bool) (db : DB) (t c d : String) :
    ∀ e ∈ (fixModify f db t c d).2, isRepairEvent e = true := by
  unfold fixModify
  split
  · intro e he; simp at he; subst he; rfl
  · split
    · intro e he; simp at he; subst he; rfl
    · split
      · split <;>
        · intro e he; simp at he; rcases he with he | he <;> (subst he; rfl)
      · intro e he; simp at he; subst he; rfl

theorem runRules_events (f : Stmt → Bool) (db : DB) (rules : List (String × String × String)) :
    ∀ e ∈ (runRules f db rules).2, isRepairEvent e = true := by
  induction rules generalizing db with
  | nil => intro e he; simp [runRules] at he
  | cons r rest ih =>
      intro e he
      simp only [runRules, List.mem_append] at he
      rcases he with he | he
      · exact checkAndAddColumn_events f db r.1 r.2.1 r.2.2 e he
      · exact ih _ e he

/-- Every event the repair pass emits is a repair event. -/
theorem ensureCriticalSchema_events (f : Stmt → Bool) (db : DB) :
    ∀ e ∈ (ensureCriticalSchema f db).2, isRepairEvent e = true := by
  unfold ensureCriticalSchema
  intro e he
  simp only [List.mem_append] at he
  rcases he with ((he | he) | he) | he
  · exact runRules_events f db repairRules e he
  · exact fixModify_events f _ _ _ _ e he
  · exact fixModify_events f _ _ _ _ e he
  · exact fixModify_events f _ _ _ _ e he

/-- A repair event belongs to no migration id. -/
theorem isRepairEvent_eventMid (e : Event) (h : isRepairEvent e = true) : eventMid e = none := by
  cases e <;> simp [isRepairEvent, eventMid] at h ⊢

/-- The `SHOW TABLES LIKE` probe of a rule is always issued, whatever the
state and whatever faults occur. -/
theorem checkAndAddColumn_probe (f : Stmt → Bool) (db : DB) (t c d : String) :
    Event.repairQuery (.showTablesLike t) ∈ (checkAndAddColumn f db t c d).2 := by
  unfold checkAndAddColumn
  split
  · simp
  · split
    · simp
    · split
      · simp
      · split
        · simp
        · split <;> simp

/-- Every rule in the list gets its probe issued: an earlier rule's fault
or failure never prevents the later rules from running. -/
theorem runRules_probe (f : Stmt → Bool) (db : DB) (rules : List (String × String × String)) :
    ∀ r ∈ rules, Event.repairQuery (.showTablesLike r.1) ∈ (runRules f db rules).2 := by
  induction rules generalizing db with
  | nil => intro r hr; simp at hr
  | cons r0 rest ih =>
      intro r hr
      rcases List.mem_cons.mp hr with rfl | hr0
      · simp only [runRules, List.mem_append]
        exact Or.inl (checkAndAddColumn_probe f db r.1 r.2.1 r.2.2)
      · simp only [runRules, List.mem_append]
        exact Or.inr (ih _ r hr0)

/-! ### Run-level lemmas -/

theorem withBookkeeping_appliedIds (db : DB) :
    (withBookkeeping db).appliedIds = db.appliedIds := by
  unfold withBookkeeping; split <;> rfl

/-- `runMigrations` unfolded: the bookkeeping `CREATE TABLE IF NOT EXISTS`
always succeeds, so the run is the repair pass followed by the loop, with
the fixed trace skeleton. -/
theorem runMigrations_def (f : Stmt → Bool) (rounds salt : Nat) (db0 : DB) :
    runMigrations f rounds salt db0 =
      ⟨(runList f db0.appliedIds (ensureCriticalSchema f (withBookkeeping db0)).1
          (migrations rounds salt)).1,
        [.connect, .createBookkeeping, .readApplied db0.appliedIds]
          ++ (ensureCriticalSchema f (withBookkeeping db0)).2
          ++ (runList f db0.appliedIds (ensureCriticalSchema f (withBookkeeping db0)).1
                (migrations rounds salt)).2
          ++ [.release]⟩ := by
  unfold runMigrations withBookkeeping
  cases h : tableExists db0 "migrations" <;> simp [execStmt, h]

/-- Every event of the migration loop is a migration event. -/
theorem runList_events_isMig (f : Stmt → Bool) (ids0 : List Nat) (db : DB)
    (l : List Migration) :
    ∀ e ∈ (runList f ids0 db l).2, isMigEvent e = true := by
  induction l generalizing db with
  | nil => intro e he; simp [runList] at he
  | cons m rest ih =>
      intro e he
      simp only [runList, List.mem_append] at he
      rcases he with he | he
      · have := migStep_events_mid f ids0 db m e he
        simp [isMigEvent, this]
      · exact ih _ e he

/-- The trace of a run has the fixed skeleton: connect, ensure bookkeeping
table, read applied ids, then only repair events, then only migration-loop
events, then release. -/
theorem runMigrations_trace_shape (f : Stmt → Bool) (rounds salt : Nat) (db0 : DB) :
    ∃ repEvs migEvs,
      (runMigrations f rounds salt db0).trace =
        [.connect, .createBookkeeping, .readApplied db0.appliedIds]
          ++ repEvs ++ migEvs ++ [.release] ∧
      (∀ e ∈ repEvs, isRepairEvent e = true) ∧ (∀ e ∈ migEvs, isMigEvent e = true) := by
  rw [runMigrations_def]
  exact ⟨_, _, rfl, ensureCriticalSchema_events f _,
    runList_events_isMig f _ _ _⟩

/-- An id recorded before the run is untouched: the whole run issues no
statement for it, records nothing for it, and logs no failure for it. -/
theorem runMigrations_no_touch (f : Stmt → Bool) (rounds salt : Nat) (db0 : DB) (i : Nat)
    (hi : i ∈ db0.appliedIds) :
    ∀ e ∈ (runMigrations f rounds salt db0).trace, touchesMig i e = false := by
  rw [runMigrations_def]
  intro e he
  simp only [List.mem_append, List.mem_cons, List.not_mem_nil, or_false] at he
  rcases he with (((he | he | he) | he) | he) | he
  · subst he; rfl
  · subst he; rfl
  · subst he; rfl
  · have := ensureCriticalSchema_events f (withBookkeeping db0) e he
    simp [touchesMig, isRepairEvent_eventMid e this]
  · exact runList_no_touch f db0.appliedIds _ (migrations rounds salt) i hi e he
  · subst he; rfl

/-- The run only appends to the bookkeeping rows: the prior row list stays
an unchanged prefix (rows are never updated, removed or reordered). -/
theorem runMigrations_applied_append (f : Stmt → Bool) (rounds salt : Nat) (db0 : DB) :
    ∃ tail, (runMigrations f rounds salt db0).db.appliedIds = db0.appliedIds ++ tail := by
  rw [runMigrations_def]
  obtain ⟨tail, h⟩ := runList_applied_append f db0.appliedIds
    (ensureCriticalSchema f (withBookkeeping db0)).1 (migrations rounds salt)
    (migrations_good rounds salt)
  refine ⟨tail, ?_⟩
  rw [h, (ensureCriticalSchema_rows f (withBookkeeping db0)).1, withBookkeeping_appliedIds]

/-- System and repair events are never `recordApplied`. -/
theorem record_mem_trace (f : Stmt → Bool) (rounds salt : Nat) (db0 : DB) (i : Nat) :
    Event.recordApplied i ∈ (runMigrations f rounds salt db0).trace ↔
      Event.recordApplied i ∈
        (runList f db0.appliedIds (ensureCriticalSchema f (withBookkeeping db0)).1
          (migrations rounds salt)).2 := by
  rw [runMigrations_def]
  simp only [List.mem_append, List.mem_cons, List.not_mem_nil, or_false]
  constructor
  · intro h
    rcases h with (((h | h | h) | h) | h) | h
    · cases h
    · cases h
    · cases h
    · have := ensureCriticalSchema_events f (withBookkeeping db0) _ h
      cases this
    · exact h
    · cases h
  · intro h
    exact Or.inl (Or.inr h)

/-- A pending id is in the bookkeeping table after the run exactly when the
run emitted its record event (which happens at the moment its SQL
succeeds). -/
theorem runMigrations_record_iff (f : Stmt → Bool) (rounds salt : Nat) (db0 : DB) (i : Nat)
    (hi : i ∉ db0.appliedIds) :
    i ∈ (runMigrations f rounds salt db0).db.appliedIds ↔
      Event.recordApplied i ∈ (runMigrations f rounds salt db0).trace := by
  rw [record_mem_trace]
  conv_lhs => rw [runMigrations_def]
  rw [runList_mem_applied f db0.appliedIds _ (migrations rounds salt)
    (migrations_good rounds salt) i]
  rw [(ensureCriticalSchema_rows f (withBookkeeping db0)).1, withBookkeeping_appliedIds]
  simp [hi]

/-- `migFailed` events come only from the migration loop. -/
theorem failed_mem_trace (f : Stmt → Bool) (rounds salt : Nat) (db0 : DB) (i : Nat) :
    Event.migFailed i ∈ (runMigrations f rounds salt db0).trace ↔
      Event.migFailed i ∈
        (runList f db0.appliedIds (ensureCriticalSchema f (withBookkeeping db0)).1
          (migrations rounds salt)).2 := by
  rw [runMigrations_def]
  simp only [List.mem_append, List.mem_cons, List.not_mem_nil, or_false]
  constructor
  · intro h
    rcases h with (((h | h | h) | h) | h) | h
    · cases h
    · cases h
    · cases h
    · have := ensureCriticalSchema_events f (withBookkeeping db0) _ h
      cases this
    · exact h
    · cases h
  · intro h
    exact Or.inl (Or.inr h)

/-- A logged migration failure means: the id was pending, is one of the
defined ids, and is absent from the bookkeeping table after the run. -/
theorem runMigrations_failed (f : Stmt → Bool) (rounds salt : Nat) (db0 : DB) (i : Nat)
    (h : Event.migFailed i ∈ (runMigrations f rounds salt db0).trace) :
    i ∉ db0.appliedIds ∧ i ∈ [1, 2, 3, 4, 5, 6, 7, 8, 9, 10, 11, 12, 13, 14, 15] ∧
      i ∉ (runMigrations f rounds salt db0).db.appliedIds := by
  rw [failed_mem_trace] at h
  have hids0 : (ensureCriticalSchema f (withBookkeeping db0)).1.appliedIds = db0.appliedIds :=
    (ensureCriticalSchema_rows f (withBookkeeping db0)).1.trans (withBookkeeping_appliedIds db0)
  obtain ⟨hnotin, hmem⟩ := runList_failed_pending f db0.appliedIds _
    (migrations rounds salt) (migrations_good rounds salt) i h
  rw [migrations_ids] at hmem
  refine ⟨hnotin, hmem, ?_⟩
  rw [runMigrations_record_iff f rounds salt db0 i hnotin, record_mem_trace]
  intro hr
  exact runList_failed_norecord f db0.appliedIds _ (migrations rounds salt)
    (migrations_good rounds salt) (by rw [migrations_ids]; decide) i h hr

/-- Every defined id still pending at the start of a run is attempted:
the run issues at least its first statement. -/
theorem runMigrations_attempt (f : Stmt → Bool) (rounds salt : Nat) (db0 : DB) (i : Nat)
    (hmem : i ∈ [1, 2, 3, 4, 5, 6, 7, 8, 9, 10, 11, 12, 13, 14, 15])
    (hi : i ∉ db0.appliedIds) :
    ∃ s, Event.migQuery i s ∈ (runMigrations f rounds salt db0).trace := by
  have hmem2 : i ∈ (migrations rounds salt).map Migration.id := by
    rw [migrations_ids]; exact hmem
  obtain ⟨m, hm, hmid⟩ := List.mem_map.mp hmem2
  obtain ⟨s, hs⟩ := runList_attempt f db0.appliedIds
    (ensureCriticalSchema f (withBookkeeping db0)).1 (migrations rounds salt) m hm
    (by rw [hmid]; exact hi) (migrations_nonempty rounds salt m hm)
  refine ⟨s, ?_⟩
  rw [runMigrations_def]
  simp only [List.mem_append]
  exact Or.inl (Or.inr (hmid ▸ hs))

/-! ### Claim theorems -/

/-- C1 (counterexample): starting from the empty database, one run does
NOT record the full defined id set 1..15 — migration 11
(`ALTER TABLE users ADD COLUMN avatarUrl`) fails, because migration 1
already created `users` with an `avatarUrl` column, so id 11 is missing
from the bookkeeping table. -/
theorem claim1_counterexample :
    11 ∉ (runMigrations noFaults 10 0 emptyDB).db.appliedIds ∧
      (runMigrations noFaults 10 0 emptyDB).db.appliedIds.length ≠ 15 := by decide

/-- C1 (amended): starting from the empty database, one run of the
migration pass records exactly the 14 ids `{1..15} \ {11}` (migration 11
fails — logged via its `migFailed` event — because migration 1 already
creates `users` with `avatarUrl`), the `users` table contains exactly the
one seeded admin row, and `app_config` contains the seeded defaults
`companyName = 'MRR INFORMATICA'` and `isSsoEnabled = 'false'`. -/
theorem claim1_fresh_run :
    (runMigrations noFaults 10 0 emptyDB).db.appliedIds
        = [1, 2, 3, 4, 5, 6, 7, 8, 9, 10, 12, 13, 14, 15] ∧
      (runMigrations noFaults 10 0 emptyDB).db.userRows = [adminSeedUser 10 0] ∧
      ConfigRow.mk "companyName" (some "MRR INFORMATICA")
          ∈ (runMigrations noFaults 10 0 emptyDB).db.configRows ∧
      ConfigRow.mk "isSsoEnabled" (some "false")
          ∈ (runMigrations noFaults 10 0 emptyDB).db.configRows ∧
      Event.migFailed 11 ∈ (runMigrations noFaults 10 0 emptyDB).trace := by decide

/-- C2: for every migration id recorded at the start of a run, the run
issues zero statements for that id — no payload statement, no bookkeeping
insert, no failure log — so editing that migration's SQL has no effect on
such a database. -/
theorem claim2_skip_applied (f : Stmt → Bool) (rounds salt : Nat) (db : DB) (i : Nat)
    (hi : i ∈ db.appliedIds) :
    ∀ e ∈ (runMigrations f rounds salt db).trace, touchesMig i e = false :=
  runMigrations_no_touch f rounds salt db i hi

theorem claim2_witness :
    7 ∈ (runMigrations noFaults 10 0 emptyDB).db.appliedIds ∧
      (∀ e ∈ (runMigrations noFaults 10 1 (runMigrations noFaults 10 0 emptyDB).db).trace,
        touchesMig 7 e = false) :=
  ⟨by decide,
    claim2_skip_applied noFaults 10 1 (runMigrations noFaults 10 0 emptyDB).db 7 (by decide)⟩

/-- C3: if a migration's SQL fails during a run (logged as its `migFailed`
event), its id is not recorded in the bookkeeping table; every pending
defined migration is still attempted in the same run (the run is not
aborted); and on every subsequent run the failed migration is re-attempted
(its SQL is issued again). -/
theorem claim3_failure_policy (f : Stmt → Bool) (rounds salt : Nat) (db : DB) (i : Nat)
    (h : Event.migFailed i ∈ (runMigrations f rounds salt db).trace) :
    i ∉ (runMigrations f rounds salt db).db.appliedIds ∧
      (∀ j, j ∉ db.appliedIds → j ∈ [1, 2, 3, 4, 5, 6, 7, 8, 9, 10, 11, 12, 13, 14, 15] →
        ∃ s, Event.migQuery j s ∈ (runMigrations f rounds salt db).trace) ∧
      (∀ f2 r2 s2, ∃ s, Event.migQuery i s ∈
        (runMigrations f2 r2 s2 (runMigrations f rounds salt db).db).trace) := by
  obtain ⟨hnotin, hmem, hfinal⟩ := runMigrations_failed f rounds salt db i h
  refine ⟨hfinal, ?_, ?_⟩
  · intro j hj hjmem
    exact runMigrations_attempt f rounds salt db j hjmem hj
  · intro f2 r2 s2
    exact runMigrations_attempt f2 r2 s2 _ i hmem hfinal

theorem claim3_witness :
    Event.migFailed 11 ∈ (runMigrations noFaults 10 0 emptyDB).trace ∧
      (11 ∉ (runMigrations noFaults 10 0 emptyDB).db.appliedIds ∧
        (∀ j, j ∉ emptyDB.appliedIds →
            j ∈ [1, 2, 3, 4, 5, 6, 7, 8, 9, 10, 11, 12, 13, 14, 15] →
          ∃ s, Event.migQuery j s ∈ (runMigrations noFaults 10 0 emptyDB).trace) ∧
        (∀ f2 r2 s2, ∃ s, Event.migQuery 11 s ∈
          (runMigrations f2 r2 s2 (runMigrations noFaults 10 0 emptyDB).db).trace)) :=
  ⟨by decide, claim3_failure_policy noFaults 10 0 emptyDB 11 (by decide)⟩

/-- C4: a pending id ends up in the bookkeeping table exactly when this
run emitted its record event (which the loop emits at the moment the
migration's SQL succeeds, and at most once since the id is then recorded);
and once an id is recorded, no run of any subsequent sequence of startups
ever issues a statement for it, records it again, or fails it again. -/
theorem claim4_exactly_once (f : Stmt → Bool) (rounds salt : Nat) (cfgs : List RunCfg)
    (db : DB) (i : Nat) :
    (i ∉ db.appliedIds →
      (i ∈ (runMigrations f rounds salt db).db.appliedIds ↔
        Event.recordApplied i ∈ (runMigrations f rounds salt db).trace)) ∧
    (i ∈ db.appliedIds →
      ∀ res ∈ runSeqResults cfgs db, ∀ e ∈ res.trace, touchesMig i e = false) := by
  constructor
  · exact fun hi => runMigrations_record_iff f rounds salt db i hi
  · induction cfgs generalizing db with
    | nil => intro hi res hres; simp [runSeqResults] at hres
    | cons c cs ih =>
        intro hi res hres
        simp only [runSeqResults, List.mem_cons] at hres
        rcases hres with rfl | hres
        · exact runMigrations_no_touch c.f c.rounds c.salt db i hi
        · obtain ⟨tail, htail⟩ := runMigrations_applied_append c.f c.rounds c.salt db
          refine ih _ ?_ res hres
          rw [htail]
          exact List.mem_append_left tail hi

theorem claim4_witness :
    (1 ∈ (runMigrations noFaults 10 0 emptyDB).db.appliedIds ↔
        Event.recordApplied 1 ∈ (runMigrations noFaults 10 0 emptyDB).trace) ∧
      (∀ res ∈ runSeqResults [⟨noFaults, 10, 1⟩] (runMigrations noFaults 10 0 emptyDB).db,
        ∀ e ∈ res.trace, touchesMig 1 e = false) :=
  ⟨(claim4_exactly_once noFaults 10 0 [] emptyDB 1).1 (by decide),
    (claim4_exactly_once noFaults 10 1 [⟨noFaults, 10, 1⟩]
      (runMigrations noFaults 10 0 emptyDB).db 1).2 (by decide)⟩

/-- C5 (counterexample): in the startup trace of a fresh run, a repair
event occurs at or after the first `readApplied` event — the code reads
the applied migration ids *before* running the critical-schema repairs,
not after, refuting the claimed step order. -/
theorem claim5_counterexample :
    ((runMigrations noFaults 10 0 emptyDB).trace.dropWhile
        (fun e => !isReadAppliedEvent e)).any isRepairEvent = true := by decide

/-- C5 (amended): on every startup the pass performs: connect, ensure the
bookkeeping table exists, read the applied migration ids, then the
critical-schema repairs, then the migration loop over the fixed list, then
release — i.e. the applied-ids read precedes the repair pass. -/
theorem claim5_step_order (f : Stmt → Bool) (rounds salt : Nat) (db : DB) :
    ∃ repEvs migEvs,
      (runMigrations f rounds salt db).trace =
        [.connect, .createBookkeeping, .readApplied db.appliedIds]
          ++ repEvs ++ migEvs ++ [.release] ∧
      (∀ e ∈ repEvs, isRepairEvent e = true) ∧ (∀ e ∈ migEvs, isMigEvent e = true) :=
  runMigrations_trace_shape f rounds salt db

/-- C6: a generic repair rule `(table, column, definition)` skips silently
when the table does not exist (state unchanged, hence no table created),
skips silently when the column is already present, and otherwise issues
the `ALTER TABLE ... ADD COLUMN`; and whatever faults occur, every rule in
the list still gets its probe issued (failures are caught per rule and do
not stop the pass). -/
theorem claim6_repair_rule (f : Stmt → Bool) (db : DB) (t c d : String) :
    (getTable db t = none → (checkAndAddColumn f db t c d).1 = db) ∧
    (∀ tbl, getTable db t = some tbl → c ∈ columnNames tbl →
      (checkAndAddColumn f db t c d).1 = db) ∧
    (∀ tbl, getTable db t = some tbl → c ∉ columnNames tbl →
      f (.showTablesLike t) = false → f (.showColumnsFrom t) = false →
      f (.addColumn t c d) = false →
      (checkAndAddColumn f db t c d).1 = addColumnToDB db t c d ∧
        Event.repairQuery (.addColumn t c d) ∈ (checkAndAddColumn f db t c d).2) ∧
    (∀ r ∈ repairRules,
      Event.repairQuery (.showTablesLike r.1) ∈ (ensureCriticalSchema f db).2) := by
  refine ⟨?_, ?_, ?_, ?_⟩
  · intro h
    unfold checkAndAddColumn
    rw [h]
    split <;> rfl
  · intro tbl h hc
    simp only [checkAndAddColumn, h, if_pos hc]
    split
    · rfl
    · split <;> rfl
  · intro tbl h hc h1 h2 h3
    unfold checkAndAddColumn
    rw [h]
    simp [h1, h2, h3, hc]
  · intro r hr
    unfold ensureCriticalSchema
    simp only [List.mem_append]
    exact Or.inl (Or.inl (Or.inl (runRules_probe f db repairRules r hr)))

theorem claim6_witness :
    ((checkAndAddColumn noFaults wdb6 "users" "avatarUrl" "MEDIUMTEXT").1 = wdb6) ∧
      ((checkAndAddColumn noFaults wdb6 "licenses" "id" "INT").1 = wdb6) ∧
      ((checkAndAddColumn noFaults wdb6 "licenses" "empresa" "VARCHAR(255) NULL").1 =
          addColumnToDB wdb6 "licenses" "empresa" "VARCHAR(255) NULL" ∧
        Event.repairQuery (.addColumn "licenses" "empresa" "VARCHAR(255) NULL") ∈
          (checkAndAddColumn noFaults wdb6 "licenses" "empresa" "VARCHAR(255) NULL").2) :=
  ⟨(claim6_repair_rule noFaults wdb6 "users" "avatarUrl" "MEDIUMTEXT").1 (by decide),
    (claim6_repair_rule noFaults wdb6 "licenses" "id" "INT").2.1
      ⟨[⟨"id", "INT"⟩]⟩ (by decide) (by decide),
    (claim6_repair_rule noFaults wdb6 "licenses" "empresa" "VARCHAR(255) NULL").2.2.1
      ⟨[⟨"id", "INT"⟩]⟩ (by decide) (by decide) rfl rfl rfl⟩

/-- C7 (counterexample): two builds of the migration array with the same
plaintext (`"marceloadmin"`) and the same salt-round configuration (10)
but different randomly drawn bcrypt salts produce *different* hash values
— bcrypt embeds a fresh random salt, so the hash is not deterministic in
(plaintext, salt rounds) alone. -/
theorem claim7_counterexample :
    (adminSeedUser 10 0).password ≠ (adminSeedUser 10 1).password ∧
      migrations 10 0 ≠ migrations 10 1 := by decide

/-- C7 (amended): the admin-seed hash is computed at
migration-definition-build time — migration 7's built definition already
contains the hash as a literal, fully determined by the plaintext, the
salt-round configuration and the drawn salt before any SQL executes — and
it is deterministic given plaintext, salt rounds *and* salt. -/
theorem claim7_build_time_hash (rounds salt : Nat) :
    ((migrations rounds salt).find? (fun m => m.id == 7)) =
        some ⟨7, [.insertIgnoreUser (adminSeedUser rounds salt)]⟩ ∧
      (adminSeedUser rounds salt).password = bcryptHashSync "marceloadmin" rounds salt :=
  ⟨rfl, rfl⟩

/-- C8: two startup runs against the same database leave exactly one
admin row — the second run skips the recorded seed migration, and even
re-executing the guarded `INSERT IGNORE` (with a freshly drawn salt) is a
no-op: it neither duplicates nor overwrites the existing row. -/
theorem claim8_seed_idempotent :
    (runMigrations noFaults 10 0 emptyDB).db.userRows = [adminSeedUser 10 0] ∧
      (runMigrations noFaults 10 1 (runMigrations noFaults 10 0 emptyDB).db).db.userRows
        = [adminSeedUser 10 0] ∧
      (execStmt (runMigrations noFaults 10 0 emptyDB).db
          (.insertIgnoreUser (adminSeedUser 10 1))).toOption =
        some (runMigrations noFaults 10 0 emptyDB).db := by decide

/-- C10: the bookkeeping id list is monotone across a run: the prior rows
remain an unchanged prefix (never updated, deleted or reordered) and the
run can only append new ids. -/
theorem claim10_monotone (f : Stmt → Bool) (rounds salt : Nat) (db : DB) :
    ∃ tail, (runMigrations f rounds salt db).db.appliedIds = db.appliedIds ++ tail :=
  runMigrations_applied_append f rounds salt db

/-! ### Idempotence of the repair pass: schema-level lemmas -/

theorem find?_setTable_self (tbls : List (String × Table)) (t : String) (tbl : Table)
    (p : String × Table) (h : tbls.find? (fun q => q.1 = t) = some p) :
    (setTable tbls t tbl).find? (fun q => q.1 = t) = some (p.1, tbl) := by
  induction tbls with
  | nil => simp [List.find?] at h
  | cons q rest ih =>
      obtain ⟨n, tb⟩ := q
      by_cases hq : n = t
      · rw [List.find?_cons_of_pos _ (by simp [hq])] at h
        cases h
        simp [setTable, hq, List.find?_cons_of_pos]
      · rw [List.find?_cons_of_neg _ (by simp [hq])] at h
        simp only [setTable, if_neg hq]
        rw [List.find?_cons_of_neg _ (by simp [hq])]
        exact ih h

theorem find?_setTable_other (tbls : List (String × Table)) (t t' : String) (tbl : Table)
    (h : t' ≠ t) :
    (setTable tbls t tbl).find? (fun q => q.1 = t') = tbls.find? (fun q => q.1 = t') := by
  induction tbls with
  | nil => simp [setTable]
  | cons q rest ih =>
      obtain ⟨n, tb⟩ := q
      by_cases hq : n = t
      · have hne : ¬(n = t') := by rw [hq]; exact fun hh => h hh.symm
        simp only [setTable, if_pos hq]
        rw [List.find?_cons_of_neg _ (by simp [hne]),
          List.find?_cons_of_neg _ (by simp [hne])]
      · simp only [setTable, if_neg hq]
        by_cases hq' : n = t'
        · rw [List.find?_cons_of_pos _ (by simp [hq']),
            List.find?_cons_of_pos _ (by simp [hq'])]
        · rw [List.find?_cons_of_neg _ (by simp [hq']),
            List.find?_cons_of_neg _ (by simp [hq'])]
          exact ih

theorem find?_setTable_found (tbls : List (String × Table)) (t : String)
    (p : String × Table) (h : tbls.find? (fun q => q.1 = t) = some p) :
    setTable tbls t p.2 = tbls := by
  induction tbls with
  | nil => rfl
  | cons q rest ih =>
      obtain ⟨n, tb⟩ := q
      by_cases hq : n = t
      · rw [List.find?_cons_of_pos _ (by simp [hq])] at h
        cases h
        simp [setTable, hq]
      · rw [List.find?_cons_of_neg _ (by simp [hq])] at h
        simp [setTable, hq, ih h]

theorem getTable_find? (db : DB) (t : String) (tbl : Table) (h : getTable db t = some tbl) :
    ∃ p, db.tables.find? (fun q => q.1 = t) = some p ∧ p.2 = tbl := by
  unfold getTable at h
  rcases hf : db.tables.find? (fun q => q.1 = t) with _ | p
  · rw [hf] at h; cases h
  · rw [hf] at h
    exact ⟨p, hf, by injection h⟩

theorem getTable_addColumn_self (db : DB) (t c d : String) (tbl : Table)
    (h : getTable db t = some tbl) :
    getTable (addColumnToDB db t c d) t = some (Table.mk (tbl.cols ++ [Column.mk c d])) := by
  obtain ⟨p, hp, hptbl⟩ := getTable_find? db t tbl h
  unfold addColumnToDB
  rw [h]
  unfold getTable
  dsimp only
  rw [find?_setTable_self db.tables t _ p hp]
  rfl

theorem getTable_addColumn_other (db : DB) (t t' c d : String) (h : t' ≠ t) :
    getTable (addColumnToDB db t c d) t' = getTable db t' := by
  rcases hg : getTable db t with _ | tbl
  · unfold addColumnToDB
    rw [hg]
  · unfold addColumnToDB
    rw [hg]
    unfold getTable
    dsimp only
    rw [find?_setTable_other db.tables t t' _ h]

theorem addColumn_none (db : DB) (t c d : String) (h : getTable db t = none) :
    addColumnToDB db t c d = db := by
  unfold addColumnToDB
  rw [h]

theorem getTable_modify_self (db : DB) (t c d : String) (tbl : Table)
    (h : getTable db t = some tbl) :
    getTable (modifyColumnDB db t c d) t =
      some (Table.mk (tbl.cols.map (fun col => if col.name = c then Column.mk c d else col))) := by
  obtain ⟨p, hp, hptbl⟩ := getTable_find? db t tbl h
  unfold modifyColumnDB
  rw [h]
  unfold getTable
  dsimp only
  rw [find?_setTable_self db.tables t _ p hp]
  rfl

theorem getTable_modify_other (db : DB) (t t' c d : String) (h : t' ≠ t) :
    getTable (modifyColumnDB db t c d) t' = getTable db t' := by
  rcases hg : getTable db t with _ | tbl
  · unfold modifyColumnDB
    rw [hg]
  · unfold modifyColumnDB
    rw [hg]
    unfold getTable
    dsimp only
    rw [find?_setTable_other db.tables t t' _ h]

theorem modify_none (db : DB) (t c d : String) (h : getTable db t = none) :
    modifyColumnDB db t c d = db := by
  unfold modifyColumnDB
  rw [h]

/-- Modifying a column definition preserves the list of column names. -/
theorem columnNames_modify (tbl : Table) (c d : String) :
    columnNames (Table.mk (tbl.cols.map (fun col => if col.name = c then Column.mk c d else col)))
      = columnNames tbl := by
  unfold columnNames
  simp only [List.map_map]
  apply List.map_congr_left
  intro col hcol
  by_cases hc : col.name = c <;> simp [hc]

/-! ### Case equations for the repair operations under no faults -/

theorem caac_db_none (f : Stmt → Bool) (db : DB) (t c d : String)
    (h : getTable db t = none) : (checkAndAddColumn f db t c d).1 = db := by
  unfold checkAndAddColumn
  rw [h]
  split <;> rfl

theorem caac_db_mem (f : Stmt → Bool) (db : DB) (t c d : String) (tbl : Table)
    (h : getTable db t = some tbl) (hc : c ∈ columnNames tbl) :
    (checkAndAddColumn f db t c d).1 = db := by
  simp only [checkAndAddColumn, h, if_pos hc]
  split
  · rfl
  · split <;> rfl

theorem caacNF_add (db : DB) (t c d : String) (tbl : Table)
    (h : getTable db t = some tbl) (hc : c ∉ columnNames tbl) :
    (checkAndAddColumn noFaults db t c d).1 = addColumnToDB db t c d := by
  simp [checkAndAddColumn, noFaults, h, hc]

/-- The three exhaustive outcomes of one rule under no faults. -/
theorem caacNF_cases (db : DB) (t c d : String) :
    (getTable db t = none ∧ (checkAndAddColumn noFaults db t c d).1 = db) ∨
    (∃ tbl, getTable db t = some tbl ∧ c ∈ columnNames tbl ∧
      (checkAndAddColumn noFaults db t c d).1 = db) ∨
    (∃ tbl, getTable db t = some tbl ∧ c ∉ columnNames tbl ∧
      (checkAndAddColumn noFaults db t c d).1 = addColumnToDB db t c d) := by
  rcases hg : getTable db t with _ | tbl
  · exact Or.inl ⟨rfl, caac_db_none noFaults db t c d hg⟩
  · by_cases hc : c ∈ columnNames tbl
    · exact Or.inr (Or.inl ⟨tbl, rfl, hc, caac_db_mem noFaults db t c d tbl hg hc⟩)
    · exact Or.inr (Or.inr ⟨tbl, rfl, hc, caacNF_add db t c d tbl hg hc⟩)

theorem fix_db_none (f : Stmt → Bool) (db : DB) (t c d : String)
    (h : getTable db t = none) : (fixModify f db t c d).1 = db := by
  unfold fixModify
  rw [h]
  split <;> rfl

theorem fix_db_notmem (f : Stmt → Bool) (db : DB) (t c d : String) (tbl : Table)
    (h : getTable db t = some tbl) (hc : c ∉ columnNames tbl) :
    (fixModify f db t c d).1 = db := by
  simp only [fixModify, h, if_neg hc]
  split <;> rfl

theorem fixNF_mem (db : DB) (t c d : String) (tbl : Table)
    (h : getTable db t = some tbl) (hc : c ∈ columnNames tbl) :
    (fixModify noFaults db t c d).1 = modifyColumnDB db t c d := by
  simp [fixModify, noFaults, h, hc]

/-- The three exhaustive outcomes of one targeted fix under no faults. -/
theorem fixNF_cases (db : DB) (t c d : String) :
    (getTable db t = none ∧ (fixModify noFaults db t c d).1 = db) ∨
    (∃ tbl, getTable db t = some tbl ∧ c ∉ columnNames tbl ∧
      (fixModify noFaults db t c d).1 = db) ∨
    (∃ tbl, getTable db t = some tbl ∧ c ∈ columnNames tbl ∧
      (fixModify noFaults db t c d).1 = modifyColumnDB db t c d) := by
  rcases hg : getTable db t with _ | tbl
  · exact Or.inl ⟨rfl, fix_db_none noFaults db t c d hg⟩
  · by_cases hc : c ∈ columnNames tbl
    · exact Or.inr (Or.inr ⟨tbl, rfl, hc, fixNF_mem db t c d tbl hg hc⟩)
    · exact Or.inr (Or.inl ⟨tbl, rfl, hc, fix_db_notmem noFaults db t c d tbl hg hc⟩)

/-! ### Transport of schema properties across the repair operations -/

theorem columnNames_append (tbl : Table) (c d : String) :
    columnNames (Table.mk (tbl.cols ++ [Column.mk c d])) = columnNames tbl ++ [c] := by
  simp [columnNames]

/-- Adding a column preserves (and can only grow) column membership. -/
theorem hasCol_addColumn (db : DB) (t c d t' c' : String) (h : hasCol db t' c') :
    hasCol (addColumnToDB db t c d) t' c' := by
  obtain ⟨tbl', hg, hc⟩ := h
  by_cases ht : t' = t
  · subst ht
    exact ⟨_, getTable_addColumn_self db t' c d tbl' hg, by
      rw [columnNames_append]; exact List.mem_append_left _ hc⟩
  · exact ⟨tbl', by rw [getTable_addColumn_other db t t' c d ht]; exact hg, hc⟩

/-- Modifying a column definition changes no table's column-name set. -/
theorem hasCol_modify_iff (db : DB) (t c d t' c' : String) :
    hasCol (modifyColumnDB db t c d) t' c' ↔ hasCol db t' c' := by
  by_cases ht : t' = t
  · subst ht
    rcases hg : getTable db t' with _ | tbl
    · rw [modify_none db t' c d hg]
    · constructor
      · rintro ⟨tbl2, hg2, hc2⟩
        rw [getTable_modify_self db t' c d tbl hg] at hg2
        cases hg2
        exact ⟨tbl, hg, by rwa [columnNames_modify] at hc2⟩
      · rintro ⟨tbl2, hg2, hc2⟩
        rw [hg] at hg2
        cases hg2
        exact ⟨_, getTable_modify_self db t' c d tbl hg, by rwa [columnNames_modify]⟩
  · unfold hasCol
    rw [getTable_modify_other db t t' c d ht]

/-- A satisfied rule stays satisfied when any column is added anywhere. -/
theorem ruleStable_addColumn (db : DB) (t c d : String) (r : String × String × String)
    (h : ruleStable db r) : ruleStable (addColumnToDB db t c d) r := by
  intro tbl2 hg2
  by_cases ht : r.1 = t
  · rcases hg : getTable db t with _ | tbl
    · rw [addColumn_none db t c d hg] at hg2
      exact h tbl2 hg2
    · rw [ht, getTable_addColumn_self db t c d tbl hg] at hg2
      cases hg2
      rw [columnNames_append]
      exact List.mem_append_left _ (h tbl (ht ▸ hg))
  · rw [getTable_addColumn_other db t r.1 c d ht] at hg2
    exact h tbl2 hg2

/-- A satisfied rule stays satisfied when any column is modified anywhere. -/
theorem ruleStable_modify (db : DB) (t c d : String) (r : String × String × String)
    (h : ruleStable db r) : ruleStable (modifyColumnDB db t c d) r := by
  intro tbl2 hg2
  by_cases ht : r.1 = t
  · rcases hg : getTable db t with _ | tbl
    · rw [modify_none db t c d hg] at hg2
      exact h tbl2 hg2
    · rw [ht, getTable_modify_self db t c d tbl hg] at hg2
      cases hg2
      rw [columnNames_modify]
      exact h tbl (ht ▸ hg)
  · rw [getTable_modify_other db t r.1 c d ht] at hg2
    exact h tbl2 hg2

/-- After `MODIFY COLUMN c d`, every column named `c` has definition `d`. -/
theorem colDefIs_modify_self (db : DB) (t c d : String) :
    colDefIs (modifyColumnDB db t c d) t c d := by
  intro tbl2 hg2 col hcol hname
  rcases hg : getTable db t with _ | tbl
  · rw [modify_none db t c d hg, hg] at hg2
    cases hg2
  · rw [getTable_modify_self db t c d tbl hg] at hg2
    cases hg2
    obtain ⟨col0, hcol0, rfl⟩ := List.mem_map.mp hcol
    by_cases hn : col0.name = c
    · rw [if_pos hn]
    · rw [if_neg hn] at hname ⊢
      exact absurd hname hn

/-- `MODIFY COLUMN` of a different table or column leaves a definition
property intact. -/
theorem colDefIs_modify_other (db : DB) (t c d t' c' d' : String)
    (hne : t ≠ t' ∨ c ≠ c') (hA : colDefIs db t c d) :
    colDefIs (modifyColumnDB db t' c' d') t c d := by
  intro tbl2 hg2 col hcol hname
  by_cases ht : t = t'
  · have hc : c ≠ c' := hne.resolve_left (fun hh => hh ht)
    rcases hg : getTable db t' with _ | tbl
    · rw [modify_none db t' c' d' hg] at hg2
      exact hA tbl2 hg2 col hcol hname
    · rw [ht, getTable_modify_self db t' c' d' tbl hg] at hg2
      cases hg2
      obtain ⟨col0, hcol0, rfl⟩ := List.mem_map.mp hcol
      by_cases hn : col0.name = c'
      · rw [if_pos hn] at hname ⊢
        exact absurd hname hc.symm
      · rw [if_neg hn] at hname ⊢
        exact hA tbl (ht ▸ hg) col0 hcol0 hname
  · rw [getTable_modify_other db t' t c' d' ht] at hg2
    exact hA tbl2 hg2 col hcol hname

theorem map_eq_self_of_forall {α : Type} (l : List α) (f : α → α)
    (h : ∀ a ∈ l, f a = a) : l.map f = l := by
  induction l with
  | nil => rfl
  | cons a rest ih =>
      simp only [List.map_cons]
      rw [h a (by simp), ih (fun a ha => h a (by simp [ha]))]

/-- If every `c`-named column already has definition `d`, the
`MODIFY COLUMN` is the identity on the state. -/
theorem modify_id_of_colDefIs (db : DB) (t c d : String) (hA : colDefIs db t c d) :
    modifyColumnDB db t c d = db := by
  rcases hg : getTable db t with _ | tbl
  · exact modify_none db t c d hg
  · obtain ⟨p, hp, hptbl⟩ := getTable_find? db t tbl hg
    have hmap : tbl.cols.map (fun col => if col.name = c then Column.mk c d else col)
        = tbl.cols := by
      apply map_eq_self_of_forall
      intro col hcol
      by_cases hn : col.name = c
      · rw [if_pos hn]
        have hd := hA tbl hg col hcol hn
        cases col
        cases hn
        cases hd
        rfl
      · rw [if_neg hn]
    unfold modifyColumnDB
    rw [hg]
    dsimp only
    rw [hmap]
    have htbl : Table.mk tbl.cols = p.2 := by rw [hptbl]
    rw [htbl, find?_setTable_found db.tables t p hp]

/-- `fixModify` under no faults preserves a definition property of any
other (table, column) pair. -/
theorem fixNF_colDef_preserve (db : DB) (t c d t' c' d' : String)
    (hne : t ≠ t' ∨ c ≠ c') (hA : colDefIs db t c d) :
    colDefIs (fixModify noFaults db t' c' d').1 t c d := by
  rcases fixNF_cases db t' c' d' with ⟨-, heq⟩ | ⟨tbl, -, -, heq⟩ | ⟨tbl, -, -, heq⟩ <;>
    rw [heq]
  · exact hA
  · exact hA
  · exact colDefIs_modify_other db t c d t' c' d' hne hA

/-- `fixModify` under no faults changes no table's column-name set. -/
theorem fixNF_hasCol_iff (db : DB) (t c d t' c' : String) :
    hasCol (fixModify noFaults db t c d).1 t' c' ↔ hasCol db t' c' := by
  rcases fixNF_cases db t c d with ⟨-, heq⟩ | ⟨tbl, -, -, heq⟩ | ⟨tbl, -, -, heq⟩ <;>
    rw [heq]
  exact hasCol_modify_iff db t c d t' c'

theorem fixNF_ruleStable (db : DB) (t c d : String) (r : String × String × String)
    (h : ruleStable db r) : ruleStable (fixModify noFaults db t c d).1 r := by
  rcases fixNF_cases db t c d with ⟨-, heq⟩ | ⟨tbl, -, -, heq⟩ | ⟨tbl, -, -, heq⟩ <;>
    rw [heq]
  · exact h
  · exact h
  · exact ruleStable_modify db t c d r h

theorem caacNF_ruleStable_preserve (db : DB) (t c d : String) (r : String × String × String)
    (h : ruleStable db r) : ruleStable (checkAndAddColumn noFaults db t c d).1 r := by
  rcases caacNF_cases db t c d with ⟨-, heq⟩ | ⟨tbl, -, -, heq⟩ | ⟨tbl, -, -, heq⟩ <;>
    rw [heq]
  · exact h
  · exact h
  · exact ruleStable_addColumn db t c d r h

/-- A rule is satisfied right after its own `checkAndAddColumn` runs. -/
theorem caacNF_establish (db : DB) (t c d : String) :
    ruleStable (checkAndAddColumn noFaults db t c d).1 (t, c, d) := by
  rcases caacNF_cases db t c d with ⟨hnone, heq⟩ | ⟨tbl, hg, hc, heq⟩ | ⟨tbl, hg, hc, heq⟩ <;>
    rw [heq]
  · intro tbl2 hg2
    rw [hnone] at hg2
    cases hg2
  · intro tbl2 hg2
    rw [hg] at hg2
    cases hg2
    exact hc
  · intro tbl2 hg2
    rw [getTable_addColumn_self db t c d tbl hg] at hg2
    cases hg2
    rw [columnNames_append]
    exact List.mem_append_right _ (by simp)

theorem caacNF_stable (db : DB) (t c d : String) (h : ruleStable db (t, c, d)) :
    (checkAndAddColumn noFaults db t c d).1 = db := by
  rcases hg : getTable db t with _ | tbl
  · exact caac_db_none noFaults db t c d hg
  · exact caac_db_mem noFaults db t c d tbl hg (h tbl hg)

theorem runRulesNF_ruleStable_preserve (db : DB) (rules : List (String × String × String))
    (r : String × String × String) (h : ruleStable db r) :
    ruleStable (runRules noFaults db rules).1 r := by
  induction rules generalizing db with
  | nil => exact h
  | cons r0 rest ih =>
      show ruleStable
        (runRules noFaults (checkAndAddColumn noFaults db r0.1 r0.2.1 r0.2.2).1 rest).1 r
      exact ih _ (caacNF_ruleStable_preserve db r0.1 r0.2.1 r0.2.2 r h)

/-- After the rule fold, every rule in the list is satisfied. -/
theorem runRulesNF_establishAll (db : DB) (rules : List (String × String × String)) :
    ∀ r ∈ rules, ruleStable (runRules noFaults db rules).1 r := by
  induction rules generalizing db with
  | nil => intro r hr; simp at hr
  | cons r0 rest ih =>
      intro r hr
      rcases List.mem_cons.mp hr with rfl | hr0
      · show ruleStable
          (runRules noFaults (checkAndAddColumn noFaults db r.1 r.2.1 r.2.2).1 rest).1 r
        exact runRulesNF_ruleStable_preserve _ rest r (caacNF_establish db r.1 r.2.1 r.2.2)
      · show ruleStable
          (runRules noFaults (checkAndAddColumn noFaults db r0.1 r0.2.1 r0.2.2).1 rest).1 r
        exact ih _ r hr0

/-- On a state where every rule is already satisfied, the rule fold is the
identity. -/
theorem runRulesNF_stable_id (db : DB) (rules : List (String × String × String))
    (h : ∀ r ∈ rules, ruleStable db r) :
    (runRules noFaults db rules).1 = db := by
  induction rules with
  | nil => rfl
  | cons r0 rest ih =>
      have h0 : (checkAndAddColumn noFaults db r0.1 r0.2.1 r0.2.2).1 = db :=
        caacNF_stable db r0.1 r0.2.1 r0.2.2 (h r0 (by simp))
      show (runRules noFaults (checkAndAddColumn noFaults db r0.1 r0.2.1 r0.2.2).1 rest).1 = db
      rw [h0]
      exact ih (fun r hr => h r (by simp [hr]))

/-! ### Assembly of the idempotence proof -/

theorem repairPass_eq (db : DB) : repairPass db =
    (fixModify noFaults (fixModify noFaults (fixModify noFaults
      (runRules noFaults db repairRules).1
      "equipment_history" "equipmentId" "INT NULL").1
      "equipment_history" "timestamp" "DATETIME DEFAULT CURRENT_TIMESTAMP").1
      "audit_log" "timestamp" "DATETIME DEFAULT CURRENT_TIMESTAMP").1 := by
  simp only [repairPass, ensureCriticalSchema]

/-- After one pass, every generic rule is satisfied. -/
theorem repairPass_ruleStable (db : DB) :
    ∀ r ∈ repairRules, ruleStable (repairPass db) r := by
  intro r hr
  rw [repairPass_eq]
  exact fixNF_ruleStable _ _ _ _ r (fixNF_ruleStable _ _ _ _ r
    (fixNF_ruleStable _ _ _ _ r (runRulesNF_establishAll db repairRules r hr)))

/-- After one pass, re-running the first targeted fix changes nothing. -/
theorem repairPass_fix1_stable (db : DB) :
    (fixModify noFaults (repairPass db) "equipment_history" "equipmentId" "INT NULL").1
      = repairPass db := by
  rcases hg : getTable (repairPass db) "equipment_history" with _ | tbl
  · exact fix_db_none noFaults _ _ _ _ hg
  · by_cases hc : "equipmentId" ∈ columnNames tbl
    · have hhasσ : hasCol (repairPass db) "equipment_history" "equipmentId" := ⟨tbl, hg, hc⟩
      rw [repairPass_eq] at hhasσ
      have hhasφ1 : hasCol
          (fixModify noFaults (runRules noFaults db repairRules).1
            "equipment_history" "equipmentId" "INT NULL").1
          "equipment_history" "equipmentId" :=
        (fixNF_hasCol_iff _ _ _ _ _ _).mp ((fixNF_hasCol_iff _ _ _ _ _ _).mp hhasσ)
      have hAφ1 : colDefIs
          (fixModify noFaults (runRules noFaults db repairRules).1
            "equipment_history" "equipmentId" "INT NULL").1
          "equipment_history" "equipmentId" "INT NULL" := by
        rcases fixNF_cases (runRules noFaults db repairRules).1
            "equipment_history" "equipmentId" "INT NULL" with
          ⟨hnone, heq⟩ | ⟨tblr, hgr, hcr, heq⟩ | ⟨tblr, hgr, hcr, heq⟩
        · rw [heq] at hhasφ1
          obtain ⟨tblx, hgx, -⟩ := hhasφ1
          rw [hnone] at hgx
          cases hgx
        · rw [heq] at hhasφ1
          obtain ⟨tblx, hgx, hcx⟩ := hhasφ1
          rw [hgr] at hgx
          cases hgx
          exact absurd hcx hcr
        · rw [heq]
          exact colDefIs_modify_self _ _ _ _
      have hAσ : colDefIs (repairPass db) "equipment_history" "equipmentId" "INT NULL" := by
        rw [repairPass_eq]
        apply fixNF_colDef_preserve _ _ _ _ _ _ _ (Or.inl (by decide))
        apply fixNF_colDef_preserve _ _ _ _ _ _ _ (Or.inr (by decide))
        exact hAφ1
      rw [fixNF_mem _ _ _ _ tbl hg hc]
      exact modify_id_of_colDefIs _ _ _ _ hAσ
    · exact fix_db_notmem noFaults _ _ _ _ tbl hg hc

/-- After one pass, re-running the second targeted fix changes nothing. -/
theorem repairPass_fix2_stable (db : DB) :
    (fixModify noFaults (repairPass db)
      "equipment_history" "timestamp" "DATETIME DEFAULT CURRENT_TIMESTAMP").1
      = repairPass db := by
  rcases hg : getTable (repairPass db) "equipment_history" with _ | tbl
  · exact fix_db_none noFaults _ _ _ _ hg
  · by_cases hc : "timestamp" ∈ columnNames tbl
    · have hhasσ : hasCol (repairPass db) "equipment_history" "timestamp" := ⟨tbl, hg, hc⟩
      rw [repairPass_eq] at hhasσ
      have hhasφ2 : hasCol
          (fixModify noFaults (fixModify noFaults (runRules noFaults db repairRules).1
              "equipment_history" "equipmentId" "INT NULL").1
            "equipment_history" "timestamp" "DATETIME DEFAULT CURRENT_TIMESTAMP").1
          "equipment_history" "timestamp" :=
        (fixNF_hasCol_iff _ _ _ _ _ _).mp hhasσ
      have hAφ2 : colDefIs
          (fixModify noFaults (fixModify noFaults (runRules noFaults db repairRules).1
              "equipment_history" "equipmentId" "INT NULL").1
            "equipment_history" "timestamp" "DATETIME DEFAULT CURRENT_TIMESTAMP").1
          "equipment_history" "timestamp" "DATETIME DEFAULT CURRENT_TIMESTAMP" := by
        rcases fixNF_cases (fixModify noFaults (runRules noFaults db repairRules).1
              "equipment_history" "equipmentId" "INT NULL").1
            "equipment_history" "timestamp" "DATETIME DEFAULT CURRENT_TIMESTAMP" with
          ⟨hnone, heq⟩ | ⟨tblr, hgr, hcr, heq⟩ | ⟨tblr, hgr, hcr, heq⟩
        · rw [heq] at hhasφ2
          obtain ⟨tblx, hgx, -⟩ := hhasφ2
          rw [hnone] at hgx
          cases hgx
        · rw [heq] at hhasφ2
          obtain ⟨tblx, hgx, hcx⟩ := hhasφ2
          rw [hgr] at hgx
          cases hgx
          exact absurd hcx hcr
        · rw [heq]
          exact colDefIs_modify_self _ _ _ _
      have hAσ : colDefIs (repairPass db)
          "equipment_history" "timestamp" "DATETIME DEFAULT CURRENT_TIMESTAMP" := by
        rw [repairPass_eq]
        apply fixNF_colDef_preserve _ _ _ _ _ _ _ (Or.inl (by decide))
        exact hAφ2
      rw [fixNF_mem _ _ _ _ tbl hg hc]
      exact modify_id_of_colDefIs _ _ _ _ hAσ
    · exact fix_db_notmem noFaults _ _ _ _ tbl hg hc

/-- After one pass, re-running the third targeted fix changes nothing. -/
theorem repairPass_fix3_stable (db : DB) :
    (fixModify noFaults (repairPass db)
      "audit_log" "timestamp" "DATETIME DEFAULT CURRENT_TIMESTAMP").1
      = repairPass db := by
  rcases hg : getTable (repairPass db) "audit_log" with _ | tbl
  · exact fix_db_none noFaults _ _ _ _ hg
  · by_cases hc : "timestamp" ∈ columnNames tbl
    · have hAσ : colDefIs (repairPass db)
          "audit_log" "timestamp" "DATETIME DEFAULT CURRENT_TIMESTAMP" := by
        rcases fixNF_cases (fixModify noFaults (fixModify noFaults
              (runRules noFaults db repairRules).1
              "equipment_history" "equipmentId" "INT NULL").1
            "equipment_history" "timestamp" "DATETIME DEFAULT CURRENT_TIMESTAMP").1
            "audit_log" "timestamp" "DATETIME DEFAULT CURRENT_TIMESTAMP" with
          ⟨hnone, heq⟩ | ⟨tblr, hgr, hcr, heq⟩ | ⟨tblr, hgr, hcr, heq⟩
        · rw [repairPass_eq, heq, hnone] at hg
          cases hg
        · rw [repairPass_eq, heq, hgr] at hg
          cases hg
          exact absurd hc hcr
        · rw [repairPass_eq, heq]
          exact colDefIs_modify_self _ _ _ _
      rw [fixNF_mem _ _ _ _ tbl hg hc]
      exact modify_id_of_colDefIs _ _ _ _ hAσ
    · exact fix_db_notmem noFaults _ _ _ _ tbl hg hc

/-- C9: the repair pass is idempotent on the schema state — running it a
second time (and hence any further time) produces exactly the state left by
the first run; every rule and targeted fix is re-runnable with no effect
beyond its first application. -/
theorem claim9_repair_idempotent (db : DB) :
    (ensureCriticalSchema noFaults (ensureCriticalSchema noFaults db).1).1 =
      (ensureCriticalSchema noFaults db).1 := by
  show repairPass (repairPass db) = repairPass db
  rw [repairPass_eq (repairPass db),
    runRulesNF_stable_id (repairPass db) repairRules (repairPass_ruleStable db),
    repairPass_fix1_stable db, repairPass_fix2_stable db, repairPass_fix3_stable db]

end Srv
